import Mathlib

/-!
Verification of the aocl-sparse CSR normalization pipeline and SpMV
dispatch/execute layer against its natural-language specification.

The C++ sources are shallowly embedded: machine floating-point values are
modelled as exact rationals (ℚ), signed integers (`aoclsparse_int`) as ℤ
where signedness is observable and as ℕ for loop counters and array
positions, arrays as Lean lists or index functions, and nullable pointers
as `Option`.  Allocation failure is modelled by an oracle `allocOk : ℕ →
Bool` giving the outcome of the successive allocation attempts made by a
call.
-/

/-- `aoclsparse_status` return codes. -/
inductive Status where
  | success
  | invalid_pointer
  | invalid_size
  | invalid_value
  | wrong_type
  | memory_error
  | not_implemented
  | internal_error
deriving DecidableEq

/-! ## SpMV kernels (`aoclsparse_csrmv.cpp`)

Each kernel works row by row on a 0-based CSR matrix.  A row is the
index range `[rowPtr i, rowPtr (i+1))` into `csr_val`/`csr_col_ind`.
The vector body accumulates `w` independent lane sums (`w` = SIMD width,
8 for the float AVX2 and double AVX512 kernels, 4 for the double AVX2
kernel), the horizontal reduction adds the lanes in the exact order of
the intrinsic sequence of each kernel, and a scalar remainder loop
handles the last `rowNnz % w` entries. -/

/-- Lane accumulators after `k` blocks of width `w` starting at `lo`:
lane `l` holds the fused-multiply-add accumulation of entries
`lo + w*b + l` for `b < k` (the `_mm*_fmadd_*` loop). -/
def laneAcc (val x : ℕ → ℚ) (col : ℕ → ℕ) (w lo : ℕ) : ℕ → ℕ → ℚ
  | 0, _ => 0
  | k + 1, l =>
      val (lo + w * k + l) * x (col (lo + w * k + l)) + laneAcc val x col w lo k l

/-- Horizontal reduction of the float AVX2 kernel
(`extractf128/movehl/shuffle/add_ss` sequence). -/
def hsum8f (L : ℕ → ℚ) : ℚ :=
  ((L 0 + L 4) + (L 2 + L 6)) + ((L 1 + L 5) + (L 3 + L 7))

/-- Horizontal reduction of the double AVX2 kernel (`hadd_pd` sequence). -/
def hsum4d (L : ℕ → ℚ) : ℚ :=
  (L 0 + L 1) + (L 2 + L 3)

/-- Horizontal reduction of the double AVX512 kernel: the 512-bit lanes are
first folded to 256 bits (`extractf64x4` + `add_pd`), then reduced as in
the AVX2 kernel. -/
def hsum8d (L : ℕ → ℚ) : ℚ :=
  ((L 0 + L 4) + (L 1 + L 5)) + ((L 2 + L 6) + (L 3 + L 7))

/-- The scalar remainder loop: `result += csr_val[j] * x[csr_col_ind[j]]`
for `k` entries starting at `lo`, beginning from accumulator `r`. -/
def remLoop (val x : ℕ → ℚ) (col : ℕ → ℕ) : ℕ → ℕ → ℚ → ℚ
  | _, 0, r => r
  | lo, k + 1, r => remLoop val x col (lo + 1) k (r + val lo * x (col lo))

/-- One row of a vectorized CSR SpMV kernel, parameterized by the SIMD
width `w` and the kernel-specific horizontal reduction `hsum`.  Follows
the source: vector loop over `rowNnz / w` blocks, horizontal add guarded
by `if (k_iter)`, scalar remainder loop, then
`if (alpha != 1) result = alpha * result` and
`if (beta != 0) result += beta * y[i]`. -/
def rowKernel (hsum : (ℕ → ℚ) → ℚ) (w : ℕ) (alpha : ℚ) (val x : ℕ → ℚ)
    (col : ℕ → ℕ) (s e : ℕ) (beta : ℚ) (yi : ℚ) : ℚ :=
  let rowNnz := e - s
  let kIter := rowNnz / w
  let kRem := rowNnz % w
  let r0 : ℚ := if kIter ≠ 0 then hsum (laneAcc val x col w s kIter) else 0
  let r1 := remLoop val x col (e - kRem) kRem r0
  let r2 := if alpha ≠ 1 then alpha * r1 else r1
  if beta ≠ 0 then r2 + beta * yi else r2

/-- `aoclsparse_csrmv_vectorized<float>`: AVX2 float kernel, width 8. -/
def aoclsparse_csrmv_vectorized (alpha : ℚ) (m : ℕ) (val : ℕ → ℚ)
    (col : ℕ → ℕ) (rowPtr : ℕ → ℕ) (x : ℕ → ℚ) (beta : ℚ) (y : ℕ → ℚ) :
    ℕ → ℚ := fun i =>
  if i < m then rowKernel hsum8f 8 alpha val x col (rowPtr i) (rowPtr (i + 1)) beta (y i)
  else y i

/-- `aoclsparse_csrmv_vectorized_avx2<double>`: AVX2 double kernel, width 4. -/
def aoclsparse_csrmv_vectorized_avx2 (alpha : ℚ) (m : ℕ) (val : ℕ → ℚ)
    (col : ℕ → ℕ) (rowPtr : ℕ → ℕ) (x : ℕ → ℚ) (beta : ℚ) (y : ℕ → ℚ) :
    ℕ → ℚ := fun i =>
  if i < m then rowKernel hsum4d 4 alpha val x col (rowPtr i) (rowPtr (i + 1)) beta (y i)
  else y i

/-- `aoclsparse_csrmv_vectorized_avx512<double>`: AVX512 double kernel, width 8. -/
def aoclsparse_csrmv_vectorized_avx512 (alpha : ℚ) (m : ℕ) (val : ℕ → ℚ)
    (col : ℕ → ℕ) (rowPtr : ℕ → ℕ) (x : ℕ → ℚ) (beta : ℚ) (y : ℕ → ℚ) :
    ℕ → ℚ := fun i =>
  if i < m then rowKernel hsum8d 8 alpha val x col (rowPtr i) (rowPtr (i + 1)) beta (y i)
  else y i

/-- Reference row dot product: `∑ t < k, csr_val[s+t] * x[csr_col_ind[s+t]]`. -/
def rowSum (val x : ℕ → ℚ) (col : ℕ → ℕ) (s : ℕ) : ℕ → ℚ
  | 0 => 0
  | k + 1 => rowSum val x col s k + val (s + k) * x (col (s + k))

/-! ## SpMV dispatcher (`aoclsparse_scsrmv` / `aoclsparse_dcsrmv`)

The C wrappers run a fixed cascade of precondition checks and then select
a kernel.  Pointers are modelled by their nullness (`Bool`, `true` =
`nullptr`), the descriptor by an `Option` record.  The outcome records
whether the wrapper returned an error before reaching any kernel
(`err`), took the quick empty-matrix return (`noop`, status success, `y`
untouched), or invoked a kernel (`call`); in the source every `err` and
`noop` path returns before `y` is written. -/

/-- `aoclsparse_index_base`. -/
inductive IndexBase where
  | zero
  | one
deriving DecidableEq

/-- Modelled from the spec: the descriptor matrix-type enumeration
(`aoclsparse_matrix_type`) is declared outside the excerpt; the spec
lists general/symmetric/triangular/etc., of which the dispatcher
supports only general and symmetric. -/
inductive MatrixType where
  | general
  | symmetric
  | triangular
  | hermitian
deriving DecidableEq

/-- Modelled from the spec: `aoclsparse_operation` (transpose request);
only `op_none` is supported by the dispatcher. -/
inductive Operation where
  | op_none
  | op_transpose
  | op_conj_transpose
deriving DecidableEq

/-- The fields of `aoclsparse_mat_descr` read by the dispatcher. -/
structure MatDescr where
  base : IndexBase
  type : MatrixType
deriving DecidableEq

/-- The kernels reachable from the two C wrappers. -/
inductive Kernel where
  | symm
  | generalScalar
  | vecFloatAvx2
  | avx2Double
  | avx512Double
deriving DecidableEq

/-- Dispatcher outcome: early error, quick empty return, or kernel call. -/
inductive SpmvOutcome where
  | err (s : Status)
  | noop
  | call (k : Kernel)
deriving DecidableEq

/-- `aoclsparse_scsrmv` (single precision) check-and-dispatch cascade. -/
def aoclsparse_scsrmv (trans : Operation) (m n nnz : ℤ)
    (valNull rowNull colNull xNull yNull : Bool) (descr : Option MatDescr) :
    SpmvOutcome :=
  match descr with
  | none => .err .invalid_pointer
  | some d =>
    if d.base ≠ .zero then .err .not_implemented
    else if d.type ≠ .general ∧ d.type ≠ .symmetric then .err .not_implemented
    else if trans ≠ .op_none then .err .not_implemented
    else if m < 0 then .err .invalid_size
    else if n < 0 then .err .invalid_size
    else if nnz < 0 then .err .invalid_size
    else if m = 0 ∨ n = 0 ∨ nnz = 0 then .noop
    else if valNull then .err .invalid_pointer
    else if rowNull then .err .invalid_pointer
    else if colNull then .err .invalid_pointer
    else if xNull then .err .invalid_pointer
    else if yNull then .err .invalid_pointer
    else if d.type = .symmetric then .call .symm
    else .call .vecFloatAvx2

/-- `aoclsparse_dcsrmv` (double precision) check-and-dispatch cascade.
`avx512Compiled` models the `USE_AVX512` build flag, `isAvx512` the
runtime `context.is_avx512` capability snapshot. -/
def aoclsparse_dcsrmv (avx512Compiled isAvx512 : Bool) (trans : Operation)
    (m n nnz : ℤ) (valNull rowNull colNull xNull yNull : Bool)
    (descr : Option MatDescr) : SpmvOutcome :=
  match descr with
  | none => .err .invalid_pointer
  | some d =>
    if d.base ≠ .zero then .err .not_implemented
    else if d.type ≠ .general ∧ d.type ≠ .symmetric then .err .not_implemented
    else if trans ≠ .op_none then .err .not_implemented
    else if m < 0 then .err .invalid_size
    else if n < 0 then .err .invalid_size
    else if nnz < 0 then .err .invalid_size
    else if m = 0 ∨ n = 0 ∨ nnz = 0 then .noop
    else if valNull then .err .invalid_pointer
    else if rowNull then .err .invalid_pointer
    else if colNull then .err .invalid_pointer
    else if xNull then .err .invalid_pointer
    else if yNull then .err .invalid_pointer
    else if d.type = .symmetric then .call .symm
    else if nnz ≤ 10 * m then .call .generalScalar
    else if avx512Compiled && isAvx512 then .call .avx512Double
    else .call .avx2Double

/-! ## SpGEMM type dispatcher (`aoclsparse_sp2m.cpp`) -/

/-- Modelled from the spec: the matrix value-type tag
(`aoclsparse_matrix_data_type`) is declared outside the excerpt; the
supported set is single/double precision real and single/double
precision complex. -/
inductive ValType where
  | smat
  | dmat
  | cmat
  | zmat
deriving DecidableEq

/-- Modelled from the spec: the `aoclsparse_request` mode
(symbolic-only vs full computation), passed through unchanged. -/
inductive Request where
  | symbolic
  | full
deriving DecidableEq

/-- Outcome of `aoclsparse_sp2m`: an early error, or the request
forwarded unchanged to the type-specialized kernel
`aoclsparse_csr2m_t<T>` for value type `t`. -/
inductive Sp2mOutcome where
  | err (s : Status)
  | call (t : ValType) (opA : Operation) (descrA : Option MatDescr)
      (opB : Operation) (descrB : Option MatDescr) (request : Request)
deriving DecidableEq

/-- `aoclsparse_sp2m`: null checks on the `A`/`B` handles and the output
slot `C` (nullness modelled by `cNull`), then dispatch on the pair of
value types. -/
def aoclsparse_sp2m (opA : Operation) (descrA : Option MatDescr)
    (A : Option ValType) (opB : Operation) (descrB : Option MatDescr)
    (B : Option ValType) (request : Request) (cNull : Bool) : Sp2mOutcome :=
  match A, B with
  | none, _ => .err .invalid_pointer
  | _, none => .err .invalid_pointer
  | some ta, some tb =>
    if cNull then .err .invalid_pointer
    else
      match ta, tb with
      | .smat, .smat => .call .smat opA descrA opB descrB request
      | .dmat, .dmat => .call .dmat opA descrA opB descrB request
      | .cmat, .cmat => .call .cmat opA descrA opB descrB request
      | .zmat, .zmat => .call .zmat opA descrA opB descrB request
      | _, _ => .err .wrong_type

/-! ## CSR utilities (`aoclsparse_csr_util.hpp`)

`aoclsparse_csr` buffer triples are modelled with `Option` lists (`none`
= null pointer).  The C loop counters and array positions are natural
numbers obtained from the signed offsets by `Int.toNat`; stored row
offsets and column indices stay in ℤ (they are `aoclsparse_int`). -/

/-- The `aoclsparse_csr` buffer triple; `none` models a null pointer. -/
structure CSRBuf where
  csr_row_ptr : Option (List ℤ)
  csr_col_ptr : Option (List ℤ)
  csr_val     : Option (List ℚ)
deriving DecidableEq

/-- `aoclsparse_copy_csr<T>`: validate, allocate three buffers
(attempts 0,1,2 of `allocOk`; on a failure all partial allocations are
released, modelled by the returned pair (allocated, released)), then
copy with base subtracted from every row offset and column index and
values verbatim.  Returns (status, destination `As`, allocated,
released). -/
def aoclsparse_copy_csr (allocOk : ℕ → Bool) (m n nnz : ℤ) (base : ℤ)
    (A As : CSRBuf) : Status × CSRBuf × ℕ × ℕ :=
  if m < 0 then (.invalid_size, As, 0, 0)
  else if A.csr_col_ptr = none ∨ A.csr_row_ptr = none ∨ A.csr_val = none then
    (.invalid_pointer, As, 0, 0)
  else if m = 0 ∨ nnz = 0 then (.success, As, 0, 0)
  else if ¬ allocOk 0 then (.memory_error, As, 0, 0)
  else if ¬ allocOk 1 then (.memory_error, As, 1, 1)
  else if ¬ allocOk 2 then (.memory_error, As, 2, 2)
  else
    let rp := A.csr_row_ptr.getD []
    let cols := A.csr_col_ptr.getD []
    let vals := A.csr_val.getD []
    (.success,
      { csr_row_ptr := some ((List.range (m.toNat + 1)).map fun i => rp.getD i 0 - base)
        csr_col_ptr := some ((List.range nnz.toNat).map fun i => cols.getD i 0 - base)
        csr_val := some ((List.range nnz.toNat).map fun i => vals.getD i 0) },
      3, 0)

/-- Write the contiguous segment `seg` into `l` starting at position `s`
(the element-by-element stores of the C inner loops over a row). -/
def writeSeg {α : Type} (l : List α) (s : ℕ) (seg : List α) : List α :=
  l.take s ++ seg ++ l.drop (s + seg.length)

/-- The starting offset of row `i` as a list position:
`(csr_row_ptr[i] - base)` (`Int.toNat` models that valid offsets are
non-negative). -/
def rowStart (rp : List ℤ) (base : ℤ) (i : ℕ) : ℕ := (rp.getD i 0 - base).toNat

/-- The `std::sort` comparator of `aoclsparse_sort_csr`:
`A->csr_col_ptr[a] <= A->csr_col_ptr[b]` on permutation indices. -/
def colLe (cols : List ℤ) (a b : ℕ) : Prop :=
  cols.getD a 0 ≤ cols.getD b 0

instance colLe.decRel (cols : List ℤ) : DecidableRel (colLe cols) := fun a b =>
  inferInstanceAs (Decidable (cols.getD a 0 ≤ cols.getD b 0))

instance colLe.isTotal (cols : List ℤ) : IsTotal ℕ (colLe cols) :=
  ⟨fun a b => le_total _ _⟩

instance colLe.isTrans (cols : List ℤ) : IsTrans ℕ (colLe cols) :=
  ⟨fun _ _ _ => le_trans⟩

/-- The per-row body of `aoclsparse_sort_csr`'s loop: sort the slice
`[idx, idx+nnzrow)` of the permutation array by column index, then
materialize the sorted (base-corrected) column and value segments of
row `i` into the destination arrays.  State: (perm, colsS, valsS). -/
def sortRowStep (colsA : List ℤ) (valsA : List ℚ) (base : ℤ) (rp : List ℤ)
    (i : ℕ) (st : List ℕ × List ℤ × List ℚ) : List ℕ × List ℤ × List ℚ :=
  let idx := rowStart rp base i
  let nnzrow := rowStart rp base (i + 1) - idx
  let sortedSeg := List.insertionSort (colLe colsA) ((st.1.drop idx).take nnzrow)
  (writeSeg st.1 idx sortedSeg,
   writeSeg st.2.1 idx (sortedSeg.map fun p => colsA.getD p 0 - base),
   writeSeg st.2.2 idx (sortedSeg.map fun p => valsA.getD p 0))

/-- Iterate `sortRowStep` over rows `0, …, k-1`. -/
def sortRows (colsA : List ℤ) (valsA : List ℚ) (base : ℤ) (rp : List ℤ) :
    ℕ → (List ℕ × List ℤ × List ℚ) → List ℕ × List ℤ × List ℚ
  | 0, st => st
  | k + 1, st => sortRowStep colsA valsA base rp k
      (sortRows colsA valsA base rp k st)

/-- `aoclsparse_sort_csr<T>`: quick return on an empty matrix, null
checks, allocation of the permutation vector (`allocOk 0`), then the
row-by-row index-permutation sort writing into `As`'s arrays.  Returns
(status, destination `As`). -/
def aoclsparse_sort_csr (allocOk : ℕ → Bool) (m n nnz : ℤ) (base : ℤ)
    (A As : CSRBuf) : Status × CSRBuf :=
  if m = 0 ∨ nnz = 0 then (.success, As)
  else if A.csr_col_ptr = none ∨ A.csr_row_ptr = none ∨ A.csr_val = none then
    (.invalid_pointer, As)
  else if ¬ allocOk 0 then (.memory_error, As)
  else
    let rp := A.csr_row_ptr.getD []
    let colsA := A.csr_col_ptr.getD []
    let valsA := A.csr_val.getD []
    let st := sortRows colsA valsA base rp m.toNat
      (List.range nnz.toNat, As.csr_col_ptr.getD [], As.csr_val.getD [])
    (.success, { As with csr_col_ptr := some st.2.1, csr_val := some st.2.2 })

/-- The diagonal scan of `aoclsparse_csr_fill_diag`'s first pass: walk a
row from position `s` with `k` entries left; stop with `(true, idx)` at
the first column equal to the row index `i`, with `(false, idx)` at the
first column greater than `i`, and with `(false, s + k)` if the row is
exhausted. -/
def diagScan (cols : List ℤ) (base : ℤ) (i : ℤ) : ℕ → ℕ → Bool × ℕ
  | s, 0 => (false, s)
  | s, k + 1 =>
      let j := cols.getD s 0 - base
      if j = i then (true, s)
      else if j > i then (false, s)
      else diagScan cols base i (s + 1) (k)

/-- First pass of `aoclsparse_csr_fill_diag` over rows `0, …, k-1`:
returns `count` (number of missing diagonals so far) and the
`missing_diag` vector (`none` models the initial `-1`). -/
def fillDiagMissing (rp cols : List ℤ) (base : ℤ) (n : ℤ) :
    ℕ → ℕ × List (Option ℕ)
  | 0 => (0, [])
  | i + 1 =>
      let (count, md) := fillDiagMissing rp cols base n i
      let s := rowStart rp base i
      let e := rowStart rp base (i + 1)
      let fi := diagScan cols base i s (e - s)
      if ¬ fi.1 ∧ (i : ℤ) < n then (count + 1, md ++ [some (fi.2 + count)])
      else (count, md ++ [none])

/-- The copy loop of `aoclsparse_csr_fill_diag`'s second pass for one
row: copy `k` entries starting at position `s`, splicing in a zero
diagonal entry with column `i` when the output position `nc` hits the
reserved slot `trig` (`missing_diag[i]`); after the loop, a trailing
check appends the diagonal of an empty (or all-below-diagonal) row.
State: (n_added, nnz_curr, icol, aval). -/
def fillDiagRow (cols : List ℤ) (vals : List ℚ) (base : ℤ) (i : ℤ)
    (trig : Option ℕ) :
    ℕ → ℕ → ℕ → ℕ → List ℤ → List ℚ → ℕ × ℕ × List ℤ × List ℚ
  | _, 0, na, nc, icol, aval =>
      if trig = some nc then (na + 1, nc + 1, icol ++ [i], aval ++ [0])
      else (na, nc, icol, aval)
  | s, k + 1, na, nc, icol, aval =>
      if trig = some nc then
        fillDiagRow cols vals base i trig (s + 1) k (na + 1) (nc + 2)
          (icol ++ [i, cols.getD s 0 - base]) (aval ++ [0, vals.getD s 0])
      else
        fillDiagRow cols vals base i trig (s + 1) k na (nc + 1)
          (icol ++ [cols.getD s 0 - base]) (aval ++ [vals.getD s 0])

/-- Second pass of `aoclsparse_csr_fill_diag` over rows `0, …, k-1`.
State: (n_added, nnz_curr, icrow, icol, aval). -/
def fillDiagBuild (rp cols : List ℤ) (vals : List ℚ) (base : ℤ)
    (md : List (Option ℕ)) : ℕ → ℕ × ℕ × List ℤ × List ℤ × List ℚ
  | 0 => (0, 0, [], [], [])
  | i + 1 =>
      let (na, nc, icrow, icol, aval) := fillDiagBuild rp cols vals base md i
      let s := rowStart rp base i
      let e := rowStart rp base (i + 1)
      let r := fillDiagRow cols vals base i (md.getD i none) s (e - s) na nc
        icol aval
      (r.1, r.2.1, icrow ++ [rp.getD i 0 - base + na], r.2.2.1, r.2.2.2)

/-- `aoclsparse_csr_fill_diag<T>`: allocate the `missing_diag` vector
(`allocOk 0`, before the null checks, as in the source), run the first
pass; if no diagonal is missing return the matrix unchanged; otherwise
allocate the three new buffers (`allocOk 1,2,3`), run the second pass
and swap the new buffers in.  Returns (status, matrix, number of
successful allocations). -/
def aoclsparse_csr_fill_diag (allocOk : ℕ → Bool) (m n nnz : ℤ) (base : ℤ)
    (A : CSRBuf) : Status × CSRBuf × ℕ :=
  if ¬ allocOk 0 then (.memory_error, A, 0)
  else if A.csr_col_ptr = none ∨ A.csr_row_ptr = none ∨ A.csr_val = none then
    (.invalid_pointer, A, 1)
  else
    let rp := A.csr_row_ptr.getD []
    let cols := A.csr_col_ptr.getD []
    let vals := A.csr_val.getD []
    let cm := fillDiagMissing rp cols base n m.toNat
    if cm.1 = 0 then (.success, A, 1)
    else if ¬ allocOk 1 then (.memory_error, A, 1)
    else if ¬ allocOk 2 then (.memory_error, A, 2)
    else if ¬ allocOk 3 then (.memory_error, A, 3)
    else
      let b := fillDiagBuild rp cols vals base cm.2 m.toNat
      (.success,
        { csr_row_ptr := some (b.2.2.1 ++ [nnz + (cm.1 : ℤ)])
          csr_col_ptr := some b.2.2.2.1
          csr_val := some b.2.2.2.2 },
        4)

def sortedRowPerm (colsA rp : List ℤ) (base : ℤ) (i : ℕ) : List ℕ :=
  List.insertionSort (colLe colsA)
    (List.range' (rowStart rp base i) (rowStart rp base (i + 1) - rowStart rp base i))

def csrRowPairs (colsA : List ℤ) (valsA : List ℚ) (rp : List ℤ) (base : ℤ)
    (i : ℕ) : List (ℤ × ℚ) :=
  (List.range' (rowStart rp base i) (rowStart rp base (i + 1) - rowStart rp base i)).map
    fun p => (colsA.getD p 0 - base, valsA.getD p 0)

def sortOutPairs (B : CSRBuf) (rp : List ℤ) (base : ℤ) (i : ℕ) : List (ℤ × ℚ) :=
  (List.range (rowStart rp base (i + 1) - rowStart rp base i)).map
    fun t => ((B.csr_col_ptr.getD []).getD (rowStart rp base i + t) 0,
              (B.csr_val.getD []).getD (rowStart rp base i + t) 0)

/-! Specification-side scan over the (base-removed) column list of a row. -/

def specScan (i : ℤ) : List ℤ → Bool × ℕ
  | [] => (false, 0)
  | c :: t =>
      if c = i then (true, 0)
      else if c > i then (false, 0)
      else ((specScan i t).1, (specScan i t).2 + 1)

/-- The base-removed columns of `k` entries starting at position `s`. -/
def colSeg (cols : List ℤ) (base : ℤ) (s k : ℕ) : List ℤ :=
  (List.range k).map fun t => cols.getD (s + t) 0 - base

def valSeg (vals : List ℚ) (s k : ℕ) : List ℚ :=
  (List.range k).map fun t => vals.getD (s + t) 0

def rowLen (rp : List ℤ) (base : ℤ) (i : ℕ) : ℕ :=
  rowStart rp base (i + 1) - rowStart rp base i

def rowColsB (rp cols : List ℤ) (base : ℤ) (i : ℕ) : List ℤ :=
  colSeg cols base (rowStart rp base i) (rowLen rp base i)

def rowValsB (rp : List ℤ) (vals : List ℚ) (base : ℤ) (i : ℕ) : List ℚ :=
  valSeg vals (rowStart rp base i) (rowLen rp base i)

def rowMissing (rp cols : List ℤ) (base : ℤ) (n : ℤ) (i : ℕ) : Bool :=
  !(specScan i (rowColsB rp cols base i)).1 && decide ((i : ℤ) < n)

def cbMissing (rp cols : List ℤ) (base : ℤ) (n : ℤ) : ℕ → ℕ
  | 0 => 0
  | i + 1 => cbMissing rp cols base n i
      + (if rowMissing rp cols base n i then 1 else 0)

def mdSpec (rp cols : List ℤ) (base : ℤ) (n : ℤ) (i : ℕ) : Option ℕ :=
  if rowMissing rp cols base n i then
    some (rowStart rp base i + (specScan i (rowColsB rp cols base i)).2
      + cbMissing rp cols base n i)
  else none

def scanPos (rp cols : List ℤ) (base : ℤ) (i : ℕ) : ℕ :=
  (specScan i (rowColsB rp cols base i)).2

def outColsRow (rp cols : List ℤ) (base : ℤ) (n : ℤ) (i : ℕ) : List ℤ :=
  if rowMissing rp cols base n i then
    colSeg cols base (rowStart rp base i) (scanPos rp cols base i) ++ [(i : ℤ)]
      ++ colSeg cols base (rowStart rp base i + scanPos rp cols base i)
          (rowLen rp base i - scanPos rp cols base i)
  else colSeg cols base (rowStart rp base i) (rowLen rp base i)

def outValsRow (rp cols : List ℤ) (vals : List ℚ) (base : ℤ) (n : ℤ) (i : ℕ) :
    List ℚ :=
  if rowMissing rp cols base n i then
    valSeg vals (rowStart rp base i) (scanPos rp cols base i) ++ [0]
      ++ valSeg vals (rowStart rp base i + scanPos rp cols base i)
          (rowLen rp base i - scanPos rp cols base i)
  else valSeg vals (rowStart rp base i) (rowLen rp base i)

def outColsUpTo (rp cols : List ℤ) (base : ℤ) (n : ℤ) : ℕ → List ℤ
  | 0 => []
  | i + 1 => outColsUpTo rp cols base n i ++ outColsRow rp cols base n i

def outValsUpTo (rp cols : List ℤ) (vals : List ℚ) (base : ℤ) (n : ℤ) :
    ℕ → List ℚ
  | 0 => []
  | i + 1 => outValsUpTo rp cols vals base n i ++ outValsRow rp cols vals base n i

def icrowSpec (rp cols : List ℤ) (base : ℤ) (n : ℤ) (i : ℕ) : List ℤ :=
  (List.range i).map fun j => rp.getD j 0 - base + (cbMissing rp cols base n j : ℤ)

def missingSpecB (rp cols : List ℤ) (base : ℤ) (n : ℤ) (j : ℕ) : Bool :=
  decide ((j : ℤ) < n ∧ (j : ℤ) ∉ rowColsB rp cols base j)

def fdBase (B : CSRBuf) : ℤ := (B.csr_row_ptr.getD []).getD 0 0

def fdPos (B : CSRBuf) (j : ℕ) : ℕ :=
  ((B.csr_row_ptr.getD []).getD j 0 - fdBase B).toNat

def fdRowCols (B : CSRBuf) (i : ℕ) : List ℤ :=
  (((B.csr_col_ptr.getD []).drop (fdPos B i)).take (fdPos B (i + 1) - fdPos B i)).map
    (· - fdBase B)

def fdRowVals (B : CSRBuf) (i : ℕ) : List ℚ :=
  ((B.csr_val.getD []).drop (fdPos B i)).take (fdPos B (i + 1) - fdPos B i)

def fdRowPairs (B : CSRBuf) (i : ℕ) : List (ℤ × ℚ) :=
  (fdRowCols B i).zip (fdRowVals B i)

def inRowPairs (rp cols : List ℤ) (vals : List ℚ) (base : ℤ) (i : ℕ) :
    List (ℤ × ℚ) :=
  (rowColsB rp cols base i).zip (rowValsB rp vals base i)

/-- The matrix handle (`_aoclsparse_matrix`), restricted to the fields
`aoclsparse_csr_optimize` reads or writes. -/
structure aoclsparse_matrix where
  m : ℤ
  n : ℤ
  nnz : ℤ
  base : ℤ
  val_type : ValType
  csr_mat : CSRBuf
  opt_csr_mat : CSRBuf
  opt_csr_is_users : Bool
  internal_base_index : ℤ
  idiag : Option (List ℤ)
  iurow : Option (List ℤ)
  opt_csr_ready : Bool
  opt_csr_full_diag : Bool
  optimized : Bool
deriving DecidableEq

/-- Modelled from the spec: the CSR validator (declared in
`aoclsparse_csr_util.hpp`, body outside the excerpt) fails with
`invalid_size` on negative `m`/`n`/`nnz`, `invalid_pointer` on a null
buffer, `invalid_value` when `base` is neither 0 nor 1, and otherwise
succeeds; no side effects. -/
def aoclsparse_csr_check_internal (m n nnz : ℤ) (mat : CSRBuf) (base : ℤ) :
    Status :=
  if m < 0 ∨ n < 0 ∨ nnz < 0 then .invalid_size
  else if mat.csr_row_ptr = none ∨ mat.csr_col_ptr = none ∨ mat.csr_val = none then
    .invalid_pointer
  else if ¬ (base = 0 ∨ base = 1) then .invalid_value
  else .success

/-- Modelled from the spec: `sorted` is true iff every row's column
indices are strictly increasing after base removal. -/
def sortedB (rp cols : List ℤ) (base : ℤ) (M : ℕ) : Bool :=
  (List.range M).all fun i => decide ((rowColsB rp cols base i).Sorted (· < ·))

/-- Modelled from the spec: `fulldiag` is true iff every row `i < n`
contains column `i`. -/
def fulldiagB (rp cols : List ℤ) (base : ℤ) (n : ℤ) (M : ℕ) : Bool :=
  (List.range M).all fun i =>
    !(decide ((i : ℤ) < n)) || decide ((i : ℤ) ∈ rowColsB rp cols base i)

/-- Modelled from the spec: the sorted/fulldiag probe (declared in
`aoclsparse_csr_util.hpp`, body outside the excerpt): `invalid_pointer`
on null row/column buffers, otherwise success with the two flags. -/
def aoclsparse_csr_check_sort_diag (m n base : ℤ) (mat : CSRBuf) :
    Status × Bool × Bool :=
  if mat.csr_row_ptr = none ∨ mat.csr_col_ptr = none then
    (.invalid_pointer, false, false)
  else
    (.success,
     sortedB (mat.csr_row_ptr.getD []) (mat.csr_col_ptr.getD []) base m.toNat,
     fulldiagB (mat.csr_row_ptr.getD []) (mat.csr_col_ptr.getD []) base n m.toNat)

/-- Modelled from the spec: DiagonalIndex — `idiag[i]` is the position of
row `i`'s diagonal entry, `iurow[i]` the position of the first entry
with column greater than `i` (on a sorted full-diagonal matrix, the slot
after the diagonal). -/
def aoclsparse_csr_indices (m base : ℤ) (icrow icol : List ℤ) :
    Status × List ℤ × List ℤ :=
  (.success,
   (List.range m.toNat).map fun i =>
     ((rowStart icrow base i : ℤ)
       + ((specScan (i : ℤ) (rowColsB icrow icol base i)).2 : ℤ)),
   (List.range m.toNat).map fun i =>
     ((rowStart icrow base i : ℤ)
       + ((specScan (i : ℤ) (rowColsB icrow icol base i)).2 : ℤ) + 1))

/-- `aoclsparse_csr_optimize<T>` (`aoclsparse_csr_util.hpp:304-392`):
null check, value-type check against the template instantiation `tmpl`,
base check, validator, sorted/fulldiag probe; alias the user's buffers
when sorted and full-diagonal (keeping the user's base), else copy
(0-based); sort and re-probe when unsorted; fill the diagonal when not
full; finally build idiag/iurow and set the optimization flags.  The
returned `ℕ` counts the CSR buffer allocations made by the copy and the
diagonal fill. -/
def aoclsparse_csr_optimize (allocOk : ℕ → Bool) (tmpl : ValType)
    (A? : Option aoclsparse_matrix) :
    Status × Option aoclsparse_matrix × ℕ :=
  match A? with
  | none => (.invalid_pointer, none, 0)
  | some A =>
    if ¬ ((A.val_type = .dmat ∧ tmpl = .dmat) ∨ (A.val_type = .smat ∧ tmpl = .smat)) then
      (.wrong_type, some A, 0)
    else if A.base ≠ 0 ∧ A.base ≠ 1 then (.invalid_value, some A, 0)
    else if aoclsparse_csr_check_internal A.m A.n A.nnz A.csr_mat A.base ≠ .success then
      (aoclsparse_csr_check_internal A.m A.n A.nnz A.csr_mat A.base, some A, 0)
    else
      let sd := aoclsparse_csr_check_sort_diag A.m A.n A.base A.csr_mat
      if sd.1 ≠ .success then (.internal_error, some A, 0)
      else
        let sorted := sd.2.1
        let fulldiag := sd.2.2
        let stage1 : Status × aoclsparse_matrix × ℕ :=
          if sorted ∧ fulldiag then
            (.success,
             { A with opt_csr_mat := A.csr_mat
                      opt_csr_is_users := true
                      internal_base_index := A.base }, 0)
          else
            let c := aoclsparse_copy_csr allocOk A.m A.n A.nnz A.base A.csr_mat
              A.opt_csr_mat
            if c.1 ≠ .success then
              (c.1, { A with opt_csr_is_users := false }, c.2.2.1)
            else
              (.success,
               { A with opt_csr_mat := c.2.1
                        opt_csr_is_users := false
                        internal_base_index := 0 }, c.2.2.1)
        if stage1.1 ≠ .success then (stage1.1, some stage1.2.1, stage1.2.2)
        else
          let A1 := stage1.2.1
          let stage2 : Status × aoclsparse_matrix × Bool :=
            if ¬ sorted then
              let so := aoclsparse_sort_csr (fun k => allocOk (3 + k)) A.m A.n A.nnz
                A.base A.csr_mat A1.opt_csr_mat
              let A2 := { A1 with opt_csr_mat := so.2 }
              let sd2 := aoclsparse_csr_check_sort_diag A.m A.n A2.internal_base_index
                A2.opt_csr_mat
              if sd2.1 ≠ .success then (sd2.1, A2, fulldiag)
              else (.success, A2, sd2.2.2)
            else (.success, A1, fulldiag)
          if stage2.1 ≠ .success then (stage2.1, some stage2.2.1, stage1.2.2)
          else
            let A2 := stage2.2.1
            let fd := stage2.2.2
            let stage3 : Status × aoclsparse_matrix × ℕ :=
              if ¬ fd then
                let f := aoclsparse_csr_fill_diag (fun k => allocOk (4 + k)) A.m A.n
                  A.nnz A2.internal_base_index A2.opt_csr_mat
                (f.1, { A2 with opt_csr_mat := f.2.1 }, f.2.2)
              else (.success, A2, 0)
            if stage3.1 ≠ .success then
              (stage3.1, some stage3.2.1, stage1.2.2 + stage3.2.2)
            else
              let A3 := stage3.2.1
              let ind := aoclsparse_csr_indices A.m A3.internal_base_index
                (A3.opt_csr_mat.csr_row_ptr.getD []) (A3.opt_csr_mat.csr_col_ptr.getD [])
              if ind.1 ≠ .success then (ind.1, some A3, stage1.2.2 + stage3.2.2)
              else
                (.success,
                 some { A3 with idiag := some ind.2.1
                                iurow := some ind.2.2
                                opt_csr_ready := true
                                opt_csr_full_diag := fd
                                optimized := true }, stage1.2.2 + stage3.2.2)

/-- A concrete 1x1 handle on the alias path: sorted, full diagonal,
double values, base 0. -/
def optWitA : aoclsparse_matrix :=
  { m := 1, n := 1, nnz := 1, base := 0, val_type := .dmat,
    csr_mat := ⟨some [0, 1], some [0], some [3]⟩,
    opt_csr_mat := ⟨none, none, none⟩,
    opt_csr_is_users := false, internal_base_index := 0,
    idiag := none, iurow := none,
    opt_csr_ready := false, opt_csr_full_diag := false, optimized := false }

theorem rowSum_succ_head (val x : ℕ → ℚ) (col : ℕ → ℕ) (s k : ℕ) :
    rowSum val x col s (k + 1) = val s * x (col s) + rowSum val x col (s + 1) k := by
  induction k with
  | zero => simp [rowSum]
  | succ k ih =>
      rw [show k + 1 + 1 = (k + 1) + 1 from rfl, rowSum, ih, rowSum]
      ring_nf

theorem rowSum_add (val x : ℕ → ℚ) (col : ℕ → ℕ) (s a b : ℕ) :
    rowSum val x col s (a + b) = rowSum val x col s a + rowSum val x col (s + a) b := by
  induction b with
  | zero => simp [rowSum]
  | succ b ih => rw [show a + (b + 1) = (a + b) + 1 from rfl, rowSum, rowSum, ih]; ring_nf

theorem remLoop_eq (val x : ℕ → ℚ) (col : ℕ → ℕ) (lo k : ℕ) (r : ℚ) :
    remLoop val x col lo k r = r + rowSum val x col lo k := by
  induction k generalizing lo r with
  | zero => simp [remLoop, rowSum]
  | succ k ih =>
      rw [remLoop, ih, rowSum_succ_head]
      ring

theorem hsum8f_laneAcc (val x : ℕ → ℚ) (col : ℕ → ℕ) (s k : ℕ) :
    hsum8f (laneAcc val x col 8 s k) = rowSum val x col s (8 * k) := by
  induction k with
  | zero => simp [hsum8f, laneAcc, rowSum]
  | succ k ih =>
      rw [show 8 * (k + 1) = 8 * k + 8 by ring, rowSum_add, ← ih]
      simp only [hsum8f, laneAcc, rowSum]
      ring

theorem hsum8d_laneAcc (val x : ℕ → ℚ) (col : ℕ → ℕ) (s k : ℕ) :
    hsum8d (laneAcc val x col 8 s k) = rowSum val x col s (8 * k) := by
  induction k with
  | zero => simp [hsum8d, laneAcc, rowSum]
  | succ k ih =>
      rw [show 8 * (k + 1) = 8 * k + 8 by ring, rowSum_add, ← ih]
      simp only [hsum8d, laneAcc, rowSum]
      ring

theorem hsum4d_laneAcc (val x : ℕ → ℚ) (col : ℕ → ℕ) (s k : ℕ) :
    hsum4d (laneAcc val x col 4 s k) = rowSum val x col s (4 * k) := by
  induction k with
  | zero => simp [hsum4d, laneAcc, rowSum]
  | succ k ih =>
      rw [show 4 * (k + 1) = 4 * k + 4 by ring, rowSum_add, ← ih]
      simp only [hsum4d, laneAcc, rowSum]
      ring

/-- The generic row kernel computes `alpha * (row dot) + beta * y_old`
whenever its horizontal reduction sums the `w` lanes. -/
theorem rowKernel_eq (hsum : (ℕ → ℚ) → ℚ) (w : ℕ)
    (hs : ∀ val x col s k, hsum (laneAcc val x col w s k) = rowSum val x col s (w * k))
    (alpha : ℚ) (val x : ℕ → ℚ) (col : ℕ → ℕ) (s e : ℕ) (hse : s ≤ e)
    (beta : ℚ) (yi : ℚ) :
    rowKernel hsum w alpha val x col s e beta yi
      = alpha * rowSum val x col s (e - s) + beta * yi := by
  have hdm : w * ((e - s) / w) + (e - s) % w = e - s := Nat.div_add_mod _ _
  have hrem : e - (e - s) % w = s + w * ((e - s) / w) := by omega
  have hr0 : (if (e - s) / w ≠ 0 then hsum (laneAcc val x col w s ((e - s) / w)) else 0)
      = rowSum val x col s (w * ((e - s) / w)) := by
    by_cases h : (e - s) / w = 0
    · simp [h, rowSum]
    · simp [h, hs]
  have key : remLoop val x col (e - (e - s) % w) ((e - s) % w)
        (if (e - s) / w ≠ 0 then hsum (laneAcc val x col w s ((e - s) / w)) else 0)
      = rowSum val x col s (e - s) := by
    rw [remLoop_eq, hr0, hrem, ← rowSum_add, hdm]
  unfold rowKernel
  simp only []
  rw [key]
  by_cases ha : alpha = 1 <;> by_cases hb : beta = 0 <;> simp [ha, hb]

/-- **C1.** Every SpMV kernel variant — float AVX2
(`aoclsparse_csrmv_vectorized<float>`), double AVX2
(`aoclsparse_csrmv_vectorized_avx2<double>`) and double AVX512
(`aoclsparse_csrmv_vectorized_avx512<double>`), each including its scalar
remainder loop — stores, for every row `i < m` with
`rowPtr i ≤ rowPtr (i+1)`, the value
`y[i] = alpha * (∑ j ∈ [rowPtr i, rowPtr (i+1)), csr_val[j] * x[csr_col_ind[j]]) + beta * y_old[i]`
(the embedding mirrors the source order `result = alpha*(row dot);
result += beta*y[i]`, with the multiply guarded by an equality test
against the literal 1); moreover when `beta = 0` the previous contents of
`y[i]` are never read: the stored value is the same for any two old `y`
vectors. -/
theorem csrmv_kernels_correct (alpha beta : ℚ) (m : ℕ) (val x : ℕ → ℚ)
    (col : ℕ → ℕ) (rowPtr : ℕ → ℕ) (y : ℕ → ℚ) (i : ℕ) (him : i < m)
    (hmono : rowPtr i ≤ rowPtr (i + 1)) :
    (aoclsparse_csrmv_vectorized alpha m val col rowPtr x beta y i
        = alpha * rowSum val x col (rowPtr i) (rowPtr (i + 1) - rowPtr i) + beta * y i
      ∧ aoclsparse_csrmv_vectorized_avx2 alpha m val col rowPtr x beta y i
        = alpha * rowSum val x col (rowPtr i) (rowPtr (i + 1) - rowPtr i) + beta * y i
      ∧ aoclsparse_csrmv_vectorized_avx512 alpha m val col rowPtr x beta y i
        = alpha * rowSum val x col (rowPtr i) (rowPtr (i + 1) - rowPtr i) + beta * y i)
    ∧ (∀ y₁ y₂ : ℕ → ℚ,
        aoclsparse_csrmv_vectorized alpha m val col rowPtr x 0 y₁ i
          = aoclsparse_csrmv_vectorized alpha m val col rowPtr x 0 y₂ i
      ∧ aoclsparse_csrmv_vectorized_avx2 alpha m val col rowPtr x 0 y₁ i
          = aoclsparse_csrmv_vectorized_avx2 alpha m val col rowPtr x 0 y₂ i
      ∧ aoclsparse_csrmv_vectorized_avx512 alpha m val col rowPtr x 0 y₁ i
          = aoclsparse_csrmv_vectorized_avx512 alpha m val col rowPtr x 0 y₂ i) := by
  have h8f := rowKernel_eq hsum8f 8 (hsum8f_laneAcc) alpha val x col
    (rowPtr i) (rowPtr (i + 1)) hmono beta (y i)
  have h4d := rowKernel_eq hsum4d 4 (hsum4d_laneAcc) alpha val x col
    (rowPtr i) (rowPtr (i + 1)) hmono beta (y i)
  have h8d := rowKernel_eq hsum8d 8 (hsum8d_laneAcc) alpha val x col
    (rowPtr i) (rowPtr (i + 1)) hmono beta (y i)
  refine ⟨⟨?_, ?_, ?_⟩, fun y₁ y₂ => ⟨?_, ?_, ?_⟩⟩
  · simpa [aoclsparse_csrmv_vectorized, him] using h8f
  · simpa [aoclsparse_csrmv_vectorized_avx2, him] using h4d
  · simpa [aoclsparse_csrmv_vectorized_avx512, him] using h8d
  all_goals {
    first
    | (rw [show aoclsparse_csrmv_vectorized alpha m val col rowPtr x 0 y₁ i
            = alpha * rowSum val x col (rowPtr i) (rowPtr (i + 1) - rowPtr i) + 0 * y₁ i by
            simpa [aoclsparse_csrmv_vectorized, him] using
              rowKernel_eq hsum8f 8 (hsum8f_laneAcc) alpha val x col
                (rowPtr i) (rowPtr (i + 1)) hmono 0 (y₁ i),
          show aoclsparse_csrmv_vectorized alpha m val col rowPtr x 0 y₂ i
            = alpha * rowSum val x col (rowPtr i) (rowPtr (i + 1) - rowPtr i) + 0 * y₂ i by
            simpa [aoclsparse_csrmv_vectorized, him] using
              rowKernel_eq hsum8f 8 (hsum8f_laneAcc) alpha val x col
                (rowPtr i) (rowPtr (i + 1)) hmono 0 (y₂ i)]
       ring)
    | (rw [show aoclsparse_csrmv_vectorized_avx2 alpha m val col rowPtr x 0 y₁ i
            = alpha * rowSum val x col (rowPtr i) (rowPtr (i + 1) - rowPtr i) + 0 * y₁ i by
            simpa [aoclsparse_csrmv_vectorized_avx2, him] using
              rowKernel_eq hsum4d 4 (hsum4d_laneAcc) alpha val x col
                (rowPtr i) (rowPtr (i + 1)) hmono 0 (y₁ i),
          show aoclsparse_csrmv_vectorized_avx2 alpha m val col rowPtr x 0 y₂ i
            = alpha * rowSum val x col (rowPtr i) (rowPtr (i + 1) - rowPtr i) + 0 * y₂ i by
            simpa [aoclsparse_csrmv_vectorized_avx2, him] using
              rowKernel_eq hsum4d 4 (hsum4d_laneAcc) alpha val x col
                (rowPtr i) (rowPtr (i + 1)) hmono 0 (y₂ i)]
       ring)
    | (rw [show aoclsparse_csrmv_vectorized_avx512 alpha m val col rowPtr x 0 y₁ i
            = alpha * rowSum val x col (rowPtr i) (rowPtr (i + 1) - rowPtr i) + 0 * y₁ i by
            simpa [aoclsparse_csrmv_vectorized_avx512, him] using
              rowKernel_eq hsum8d 8 (hsum8d_laneAcc) alpha val x col
                (rowPtr i) (rowPtr (i + 1)) hmono 0 (y₁ i),
          show aoclsparse_csrmv_vectorized_avx512 alpha m val col rowPtr x 0 y₂ i
            = alpha * rowSum val x col (rowPtr i) (rowPtr (i + 1) - rowPtr i) + 0 * y₂ i by
            simpa [aoclsparse_csrmv_vectorized_avx512, him] using
              rowKernel_eq hsum8d 8 (hsum8d_laneAcc) alpha val x col
                (rowPtr i) (rowPtr (i + 1)) hmono 0 (y₂ i)]
       ring) }

/-- Witness for `csrmv_kernels_correct` at a concrete input: one row
`[0,3)` with values `1,2,3`, columns `0,1,2`, `x = 1`, `alpha = 2`,
`beta = 3`, `y_old = 5`. -/
theorem csrmv_kernels_correct_witness :
    (0 : ℕ) < 1 ∧ (fun i : ℕ => 3 * i) 0 ≤ (fun i : ℕ => 3 * i) (0 + 1) ∧
    (aoclsparse_csrmv_vectorized 2 1 (fun j => (j : ℚ) + 1) (fun j => j)
        (fun i => 3 * i) (fun _ => 1) 3 (fun _ => 5) 0
      = 2 * rowSum (fun j => (j : ℚ) + 1) (fun _ => 1) (fun j => j) 0 3 + 3 * 5) := by
  refine ⟨by decide, by decide, ?_⟩
  have h := (csrmv_kernels_correct 2 3 1 (fun j => (j : ℚ) + 1) (fun _ => 1)
    (fun j => j) (fun i : ℕ => 3 * i) (fun _ => 5) 0 (by decide) (by decide)).1.1
  simpa using h

/-- **C4.** Both SpMV C wrappers implement exactly the documented decision
order: (1) null descriptor → `invalid_pointer`; (2) then non-zero base →
`not_implemented` (regardless of any later condition); (3) then a
descriptor type outside {general, symmetric} → `not_implemented`;
(4) then a transpose request → `not_implemented`; (5) then negative
`m`/`n`/`nnz` → `invalid_size`; (6) then `m = 0 ∨ n = 0 ∨ nnz = 0` →
quick success without touching `y`; (7) then any null buffer or vector
pointer → `invalid_pointer`; in particular a null `csr_val` with
otherwise valid positive-size inputs yields `invalid_pointer`.
(`err`/`noop` outcomes return before any kernel call, so `y` is never
written on those paths.) -/
theorem csrmv_dispatch_order (avx512Compiled isAvx512 : Bool)
    (trans : Operation) (m n nnz : ℤ)
    (vN rN cN xN yN : Bool) (dbase : IndexBase) (dtype : MatrixType) :
    (aoclsparse_scsrmv trans m n nnz vN rN cN xN yN none = .err .invalid_pointer
      ∧ aoclsparse_dcsrmv avx512Compiled isAvx512 trans m n nnz vN rN cN xN yN none
          = .err .invalid_pointer)
    ∧ (dbase = .one →
        aoclsparse_scsrmv trans m n nnz vN rN cN xN yN (some ⟨dbase, dtype⟩)
            = .err .not_implemented
        ∧ aoclsparse_dcsrmv avx512Compiled isAvx512 trans m n nnz vN rN cN xN yN
            (some ⟨dbase, dtype⟩) = .err .not_implemented)
    ∧ (dbase = .zero → dtype ≠ .general → dtype ≠ .symmetric →
        aoclsparse_scsrmv trans m n nnz vN rN cN xN yN (some ⟨dbase, dtype⟩)
            = .err .not_implemented
        ∧ aoclsparse_dcsrmv avx512Compiled isAvx512 trans m n nnz vN rN cN xN yN
            (some ⟨dbase, dtype⟩) = .err .not_implemented)
    ∧ (dbase = .zero → (dtype = .general ∨ dtype = .symmetric) →
        trans ≠ .op_none →
        aoclsparse_scsrmv trans m n nnz vN rN cN xN yN (some ⟨dbase, dtype⟩)
            = .err .not_implemented
        ∧ aoclsparse_dcsrmv avx512Compiled isAvx512 trans m n nnz vN rN cN xN yN
            (some ⟨dbase, dtype⟩) = .err .not_implemented)
    ∧ (dbase = .zero → (dtype = .general ∨ dtype = .symmetric) →
        trans = .op_none → (m < 0 ∨ n < 0 ∨ nnz < 0) →
        aoclsparse_scsrmv trans m n nnz vN rN cN xN yN (some ⟨dbase, dtype⟩)
            = .err .invalid_size
        ∧ aoclsparse_dcsrmv avx512Compiled isAvx512 trans m n nnz vN rN cN xN yN
            (some ⟨dbase, dtype⟩) = .err .invalid_size)
    ∧ (dbase = .zero → (dtype = .general ∨ dtype = .symmetric) →
        trans = .op_none → 0 ≤ m → 0 ≤ n → 0 ≤ nnz →
        (m = 0 ∨ n = 0 ∨ nnz = 0) →
        aoclsparse_scsrmv trans m n nnz vN rN cN xN yN (some ⟨dbase, dtype⟩) = .noop
        ∧ aoclsparse_dcsrmv avx512Compiled isAvx512 trans m n nnz vN rN cN xN yN
            (some ⟨dbase, dtype⟩) = .noop)
    ∧ (dbase = .zero → (dtype = .general ∨ dtype = .symmetric) →
        trans = .op_none → 0 < m → 0 < n → 0 < nnz →
        (vN = true ∨ rN = true ∨ cN = true ∨ xN = true ∨ yN = true) →
        aoclsparse_scsrmv trans m n nnz vN rN cN xN yN (some ⟨dbase, dtype⟩)
            = .err .invalid_pointer
        ∧ aoclsparse_dcsrmv avx512Compiled isAvx512 trans m n nnz vN rN cN xN yN
            (some ⟨dbase, dtype⟩) = .err .invalid_pointer) := by
  refine ⟨⟨rfl, rfl⟩, ?_, ?_, ?_, ?_, ?_, ?_⟩
  · intro hb
    subst hb
    constructor <;> simp [aoclsparse_scsrmv, aoclsparse_dcsrmv]
  · intro hb ht1 ht2
    subst hb
    cases dtype <;> simp_all [aoclsparse_scsrmv, aoclsparse_dcsrmv]
  · intro hb hty htr
    subst hb
    rcases hty with h | h <;> subst h <;> cases trans <;>
      simp_all [aoclsparse_scsrmv, aoclsparse_dcsrmv]
  · intro hb hty htr hsz
    subst hb htr
    rcases hty with h | h <;> subst h <;>
      rcases hsz with h5 | h5 | h5 <;>
        constructor <;>
          simp [aoclsparse_scsrmv, aoclsparse_dcsrmv, h5]
  · intro hb hty htr hm hn hnnz hz
    subst hb htr
    rcases hty with h | h <;> subst h <;>
      constructor <;>
        simp [aoclsparse_scsrmv, aoclsparse_dcsrmv, hz,
          show ¬(m < 0) by omega, show ¬(n < 0) by omega,
          show ¬(nnz < 0) by omega]
  · intro hb hty htr hm hn hnnz hnull
    subst hb htr
    rcases hty with h | h <;> subst h <;>
      rcases hnull with h5 | h5 | h5 | h5 | h5 <;>
        constructor <;>
          simp [aoclsparse_scsrmv, aoclsparse_dcsrmv, h5,
            show ¬(m < 0) by omega, show ¬(n < 0) by omega,
            show ¬(nnz < 0) by omega,
            show ¬(m = 0 ∨ n = 0 ∨ nnz = 0) by omega]

/-- Witness for `csrmv_dispatch_order`: a null `csr_val` with an
otherwise valid 1×1 matrix gives `invalid_pointer` in both wrappers. -/
theorem csrmv_dispatch_order_witness :
    aoclsparse_scsrmv .op_none 1 1 1 true false false false false
        (some ⟨.zero, .general⟩) = .err .invalid_pointer
    ∧ aoclsparse_dcsrmv true true .op_none 1 1 1 true false false false false
        (some ⟨.zero, .general⟩) = .err .invalid_pointer := by
  have h := (csrmv_dispatch_order true true .op_none 1 1 1 true false false false false
    .zero .general).2.2.2.2.2.2 rfl (Or.inl rfl) rfl (by norm_num) (by norm_num)
    (by norm_num) (Or.inl rfl)
  exact h

/-- **C3 (counterexample).** The claim asserts that for *every* SpMV call
(single or double precision) passing all checks with a general
descriptor, `nnz ≤ 10*m` routes to the scalar/general kernel.  It is
false for single precision: `aoclsparse_scsrmv` contains no density test
and always invokes the vectorized float AVX2 kernel for a general
descriptor — here a 1×1 matrix with `nnz = 1 ≤ 10 * 1`. -/
theorem scsrmv_density_counterexample :
    (1 : ℤ) ≤ 10 * 1
    ∧ aoclsparse_scsrmv .op_none 1 1 1 false false false false false
        (some ⟨.zero, .general⟩) = .call .vecFloatAvx2
    ∧ SpmvOutcome.call .vecFloatAvx2 ≠ SpmvOutcome.call .generalScalar := by
  refine ⟨by norm_num, by decide, by decide⟩

/-- **C3 (amended).** Kernel routing after all precondition checks pass:
a symmetric descriptor always routes to the symmetric kernel in both
wrappers; in the double-precision wrapper a general descriptor routes to
the scalar/general kernel when `nnz ≤ 10*m` and otherwise to the AVX512
kernel when AVX512 support is compiled in and the ISA capability flag is
set, else to the AVX2 kernel; the single-precision wrapper has no
density test and always routes a general descriptor to the vectorized
float AVX2 kernel. -/
theorem csrmv_dispatch_kernel_routing (avx512Compiled isAvx512 : Bool)
    (m n nnz : ℤ) (hm : 0 < m) (hn : 0 < n) (hnnz : 0 < nnz) :
    (aoclsparse_scsrmv .op_none m n nnz false false false false false
        (some ⟨.zero, .symmetric⟩) = .call .symm
      ∧ aoclsparse_dcsrmv avx512Compiled isAvx512 .op_none m n nnz
          false false false false false (some ⟨.zero, .symmetric⟩) = .call .symm)
    ∧ (aoclsparse_scsrmv .op_none m n nnz false false false false false
        (some ⟨.zero, .general⟩) = .call .vecFloatAvx2)
    ∧ (nnz ≤ 10 * m →
        aoclsparse_dcsrmv avx512Compiled isAvx512 .op_none m n nnz
          false false false false false (some ⟨.zero, .general⟩)
          = .call .generalScalar)
    ∧ (¬ nnz ≤ 10 * m → avx512Compiled = true → isAvx512 = true →
        aoclsparse_dcsrmv avx512Compiled isAvx512 .op_none m n nnz
          false false false false false (some ⟨.zero, .general⟩)
          = .call .avx512Double)
    ∧ (¬ nnz ≤ 10 * m → ¬ (avx512Compiled = true ∧ isAvx512 = true) →
        aoclsparse_dcsrmv avx512Compiled isAvx512 .op_none m n nnz
          false false false false false (some ⟨.zero, .general⟩)
          = .call .avx2Double) := by
  have h1 : ¬(m < 0) := by omega
  have h2 : ¬(n < 0) := by omega
  have h3 : ¬(nnz < 0) := by omega
  have h4 : ¬(m = 0 ∨ n = 0 ∨ nnz = 0) := by omega
  refine ⟨⟨?_, ?_⟩, ?_, ?_, ?_, ?_⟩
  · simp [aoclsparse_scsrmv, h1, h2, h3, h4]
  · simp [aoclsparse_dcsrmv, h1, h2, h3, h4]
  · simp [aoclsparse_scsrmv, h1, h2, h3, h4]
  · intro hd
    simp [aoclsparse_dcsrmv, h1, h2, h3, h4, hd]
  · intro hd hc hi
    subst hc hi
    simp [aoclsparse_dcsrmv, h1, h2, h3, h4, hd]
  · intro hd hflags
    rcases Bool.eq_false_or_eq_true avx512Compiled with hc | hc <;>
      rcases Bool.eq_false_or_eq_true isAvx512 with hi | hi <;>
        subst hc hi <;>
          simp [aoclsparse_dcsrmv, h1, h2, h3, h4, hd] <;>
            exact hflags ⟨rfl, rfl⟩

/-- Witness for `csrmv_dispatch_kernel_routing`: a 1×1 double-precision
matrix with `nnz = 1 ≤ 10` routes to the scalar/general kernel. -/
theorem csrmv_dispatch_kernel_routing_witness :
    (0 : ℤ) < 1 ∧ (1 : ℤ) ≤ 10 * 1 ∧
    aoclsparse_dcsrmv true true .op_none 1 1 1 false false false false false
      (some ⟨.zero, .general⟩) = .call .generalScalar := by
  refine ⟨by norm_num, by norm_num, ?_⟩
  exact (csrmv_dispatch_kernel_routing true true 1 1 1 (by norm_num) (by norm_num)
    (by norm_num)).2.2.1 (by norm_num)

/-- **C9.** `aoclsparse_sp2m` returns `invalid_pointer` when the `A`
handle, the `B` handle, or the output slot `C` is null; otherwise it
returns `wrong_type` whenever the two value types differ, and for equal
value types (single/double real, single/double complex) it forwards the
request unchanged to the type-specialized kernel for that type. -/
theorem sp2m_dispatch (opA opB : Operation) (descrA descrB : Option MatDescr)
    (A B : Option ValType) (request : Request) (cNull : Bool)
    (ta tb : ValType) :
    (A = none ∨ B = none ∨ cNull = true →
      aoclsparse_sp2m opA descrA A opB descrB B request cNull
        = .err .invalid_pointer)
    ∧ (ta ≠ tb →
      aoclsparse_sp2m opA descrA (some ta) opB descrB (some tb) request false
        = .err .wrong_type)
    ∧ (aoclsparse_sp2m opA descrA (some ta) opB descrB (some ta) request false
        = .call ta opA descrA opB descrB request) := by
  refine ⟨?_, ?_, ?_⟩
  · rintro (h | h | h)
    · subst h
      cases B <;> simp [aoclsparse_sp2m]
    · subst h
      cases A <;> simp [aoclsparse_sp2m]
    · subst h
      cases A <;> [skip; cases B] <;> simp [aoclsparse_sp2m]
  · intro hne
    cases ta <;> cases tb <;> simp_all [aoclsparse_sp2m]
  · cases ta <;> simp [aoclsparse_sp2m]

/-- Witness for `sp2m_dispatch`: a null `B` handle gives
`invalid_pointer`, and equal double-precision types dispatch to the
double kernel. -/
theorem sp2m_dispatch_witness :
    aoclsparse_sp2m .op_none none (some .dmat) .op_none none none .full false
      = .err .invalid_pointer
    ∧ aoclsparse_sp2m .op_none none (some .dmat) .op_none none (some .dmat)
        .full false = .call .dmat .op_none none .op_none none .full := by
  constructor
  · exact (sp2m_dispatch .op_none .op_none none none (some .dmat) none .full false
      .dmat .dmat).1 (Or.inr (Or.inl rfl))
  · exact (sp2m_dispatch .op_none .op_none none none (some .dmat) (some .dmat)
      .full false .dmat .dmat).2.2

theorem map_range_getD {α β : Type} (l : List α) (f : α → β) (d : α) :
    (List.range l.length).map (fun i => f (l.getD i d)) = l.map f := by
  induction l with
  | nil => simp
  | cons a t ih =>
      rw [List.length_cons, List.range_succ_eq_map, List.map_cons, List.map_map]
      simp only [Function.comp_def, List.getD_cons_succ, List.getD_cons_zero]
      rw [ih, List.map_cons]

/-- **C7.** `aoclsparse_copy_csr` fails with `invalid_size` for negative
`m`; then with `invalid_pointer` if any source buffer is null; then
returns success as a no-op when `m = 0` or `nnz = 0`; on an allocation
failure it returns `memory_error` with every partial allocation
released; and on success it allocates three fresh buffers of sizes
`m+1`, `nnz`, `nnz` holding the source row offsets and column indices
minus `base` and the source values verbatim. -/
theorem copy_csr_correct (allocOk : ℕ → Bool) (m n nnz base : ℤ)
    (rp cols : List ℤ) (vals : List ℚ) (A As : CSRBuf) :
    (m < 0 → aoclsparse_copy_csr allocOk m n nnz base A As = (.invalid_size, As, 0, 0))
    ∧ (0 ≤ m →
        (A.csr_col_ptr = none ∨ A.csr_row_ptr = none ∨ A.csr_val = none) →
        aoclsparse_copy_csr allocOk m n nnz base A As = (.invalid_pointer, As, 0, 0))
    ∧ (0 ≤ m → A.csr_col_ptr ≠ none → A.csr_row_ptr ≠ none → A.csr_val ≠ none →
        (m = 0 ∨ nnz = 0) →
        aoclsparse_copy_csr allocOk m n nnz base A As = (.success, As, 0, 0))
    ∧ (0 < m → nnz ≠ 0 →
        A.csr_col_ptr ≠ none → A.csr_row_ptr ≠ none → A.csr_val ≠ none →
        (¬ allocOk 0 ∨ ¬ allocOk 1 ∨ ¬ allocOk 2) →
        (aoclsparse_copy_csr allocOk m n nnz base A As).1 = .memory_error
        ∧ (aoclsparse_copy_csr allocOk m n nnz base A As).2.2.1
            = (aoclsparse_copy_csr allocOk m n nnz base A As).2.2.2)
    ∧ (0 < m → nnz ≠ 0 → allocOk 0 → allocOk 1 → allocOk 2 →
        A.csr_row_ptr = some rp → A.csr_col_ptr = some cols → A.csr_val = some vals →
        rp.length = m.toNat + 1 → cols.length = nnz.toNat → vals.length = nnz.toNat →
        aoclsparse_copy_csr allocOk m n nnz base A As
          = (.success,
              { csr_row_ptr := some (rp.map (· - base))
                csr_col_ptr := some (cols.map (· - base))
                csr_val := some vals }, 3, 0)
          ∧ (rp.map (· - base)).length = m.toNat + 1
          ∧ (cols.map (· - base)).length = nnz.toNat) := by
  refine ⟨?_, ?_, ?_, ?_, ?_⟩
  · intro hm
    simp [aoclsparse_copy_csr, hm]
  · intro hm hnull
    have hm0 : ¬ (m < 0) := by omega
    simp [aoclsparse_copy_csr, hm0, hnull]
  · intro hm hc hr hv hz
    have hm0 : ¬ (m < 0) := by omega
    simp [aoclsparse_copy_csr, hm0, hc, hr, hv, hz]
  · intro hm hnnz hc hr hv halloc
    have hm0 : ¬ (m < 0) := by omega
    have hz : ¬ (m = 0 ∨ nnz = 0) := by omega
    rcases halloc with h | h | h
    · simp [aoclsparse_copy_csr, hm0, hc, hr, hv, hz, h]
    · by_cases h0 : allocOk 0 <;>
        simp [aoclsparse_copy_csr, hm0, hc, hr, hv, hz, h, h0]
    · by_cases h0 : allocOk 0 <;> by_cases h1 : allocOk 1 <;>
        simp [aoclsparse_copy_csr, hm0, hc, hr, hv, hz, h, h0, h1]
  · intro hm hnnz h0 h1 h2 hr hc hv hlr hlc hlv
    have hm0 : ¬ (m < 0) := by omega
    have hz : ¬ (m = 0 ∨ nnz = 0) := by omega
    have hnn : A.csr_col_ptr ≠ none := by simp [hc]
    have hrn : A.csr_row_ptr ≠ none := by simp [hr]
    have hvn : A.csr_val ≠ none := by simp [hv]
    refine ⟨?_, by simp [hlr], by simp [hlc]⟩
    have e1 : (List.range (m.toNat + 1)).map (fun i => rp.getD i 0 - base)
        = rp.map (· - base) := by
      rw [show m.toNat + 1 = rp.length from by omega]
      exact map_range_getD rp (fun v => v - base) 0
    have e2 : (List.range nnz.toNat).map (fun i => cols.getD i 0 - base)
        = cols.map (· - base) := by
      rw [show nnz.toNat = cols.length from hlc.symm]
      exact map_range_getD cols (fun v => v - base) 0
    have e3 : (List.range nnz.toNat).map (fun i => vals.getD i 0) = vals := by
      rw [show nnz.toNat = vals.length from hlv.symm]
      have h4 := map_range_getD vals id 0
      simpa using h4
    simp only [aoclsparse_copy_csr, hm0, hz, h0, h1, h2, hr, hc, hv]
    simp
    exact ⟨by simpa using e1, by simpa using e2, by simpa using e3⟩

/-- Witness for `copy_csr_correct`: a successful base-1 copy of a 1×1
matrix with one entry. -/
theorem copy_csr_correct_witness :
    aoclsparse_copy_csr (fun _ => true) 1 1 1 1 ⟨some [1, 2], some [1], some [7]⟩
        ⟨none, none, none⟩
      = (.success, ⟨some [0, 1], some [0], some [7]⟩, 3, 0) := by
  have h := (copy_csr_correct (fun _ => true) 1 1 1 1 [1, 2] [1] [7]
    ⟨some [1, 2], some [1], some [7]⟩ ⟨none, none, none⟩).2.2.2.2
    (by norm_num) (by norm_num) rfl rfl rfl rfl rfl rfl (by decide) (by decide)
    (by decide)
  simpa using h.1

/-- **C10.** The empty-matrix quick return and the null-pointer check
are ordered oppositely in the two normalizer entry points:
`aoclsparse_sort_csr` with `m = 0` or `nnz = 0` returns success without
examining any buffer pointer (null buffers accepted), while
`aoclsparse_copy_csr` checks the source buffers first and returns
`invalid_pointer` for null source buffers even when `m = 0` or
`nnz = 0` (for any non-negative `m`). -/
theorem sort_copy_null_check_order (allocOk : ℕ → Bool) (m n nnz base : ℤ)
    (A As : CSRBuf) :
    ((m = 0 ∨ nnz = 0) →
      aoclsparse_sort_csr allocOk m n nnz base A As = (.success, As))
    ∧ (0 ≤ m → (m = 0 ∨ nnz = 0) →
        (A.csr_col_ptr = none ∨ A.csr_row_ptr = none ∨ A.csr_val = none) →
        aoclsparse_copy_csr allocOk m n nnz base A As
          = (.invalid_pointer, As, 0, 0)) := by
  constructor
  · intro hz
    simp [aoclsparse_sort_csr, hz]
  · intro hm hz hnull
    have hm0 : ¬ (m < 0) := by omega
    simp [aoclsparse_copy_csr, hm0, hnull]

/-- Witness for `sort_copy_null_check_order`: with `m = 0` and all
buffers null, sort succeeds while copy reports `invalid_pointer`. -/
theorem sort_copy_null_check_order_witness :
    aoclsparse_sort_csr (fun _ => true) 0 0 0 0 ⟨none, none, none⟩ ⟨none, none, none⟩
      = (.success, ⟨none, none, none⟩)
    ∧ aoclsparse_copy_csr (fun _ => true) 0 0 0 0 ⟨none, none, none⟩ ⟨none, none, none⟩
      = (.invalid_pointer, ⟨none, none, none⟩, 0, 0) := by
  constructor
  · exact (sort_copy_null_check_order (fun _ => true) 0 0 0 0
      ⟨none, none, none⟩ ⟨none, none, none⟩).1 (Or.inl rfl)
  · exact (sort_copy_null_check_order (fun _ => true) 0 0 0 0
      ⟨none, none, none⟩ ⟨none, none, none⟩).2 le_rfl (Or.inl rfl) (Or.inl rfl)

theorem writeSeg_length {α : Type} (l : List α) (s : ℕ) (seg : List α)
    (h : s + seg.length ≤ l.length) : (writeSeg l s seg).length = l.length := by
  simp [writeSeg]
  omega

theorem writeSeg_getD_lt {α : Type} (l : List α) (s : ℕ) (seg : List α) (j : ℕ) (d : α)
    (hj : j < s) (hs : s ≤ l.length) : (writeSeg l s seg).getD j d = l.getD j d := by
  simp only [writeSeg, List.getD_eq_getElem?_getD, List.append_assoc]
  rw [List.getElem?_append_left (by rw [List.length_take]; omega)]
  rw [List.getElem?_take_of_lt hj]

theorem writeSeg_getD_in {α : Type} (l : List α) (s : ℕ) (seg : List α) (j : ℕ) (d : α)
    (h : s ≤ l.length) (hj : j < seg.length) :
    (writeSeg l s seg).getD (s + j) d = seg.getD j d := by
  have h1 : (l.take s).length = s := by rw [List.length_take]; omega
  simp only [writeSeg, List.getD_eq_getElem?_getD, List.append_assoc]
  rw [List.getElem?_append_right (by rw [h1]; omega), h1]
  rw [List.getElem?_append_left (by omega)]
  have hx : s + j - s = j := by omega
  rw [hx]

theorem writeSeg_getD_ge {α : Type} (l : List α) (s : ℕ) (seg : List α) (j : ℕ) (d : α)
    (h : s + seg.length ≤ l.length) (hj : s + seg.length ≤ j) :
    (writeSeg l s seg).getD j d = l.getD j d := by
  have h1 : (l.take s).length = s := by rw [List.length_take]; omega
  simp only [writeSeg, List.getD_eq_getElem?_getD, List.append_assoc]
  rw [List.getElem?_append_right (by rw [h1]; omega), h1]
  rw [List.getElem?_append_right (by omega)]
  rw [List.getElem?_drop]
  have hx : s + seg.length + (j - s - seg.length) = j := by omega
  rw [hx]

theorem getD_drop_take {α : Type} (l : List α) (i n t : ℕ) (d : α) (ht : t < n) :
    ((l.drop i).take n).getD t d = l.getD (i + t) d := by
  rw [List.getD_eq_getElem?_getD, List.getElem?_take_of_lt ht, List.getElem?_drop,
    ← List.getD_eq_getElem?_getD]

theorem eq_range'_of_getD (l : List ℕ) (s n : ℕ) (hlen : l.length = n)
    (h : ∀ t, t < n → l.getD t 0 = s + t) : l = List.range' s n := by
  apply List.ext_getElem (by simp [hlen])
  intro i h1 h2
  have hi := h i (by omega)
  rw [List.getD_eq_getElem?_getD, List.getElem?_eq_getElem h1] at hi
  simpa [List.getElem_range'] using hi

theorem rowStart_mono (rp : List ℤ) (base : ℤ) (M : ℕ)
    (hmono : ∀ i < M, rowStart rp base i ≤ rowStart rp base (i + 1)) :
    ∀ i j, i ≤ j → j ≤ M → rowStart rp base i ≤ rowStart rp base j := by
  intro i j hij hjM
  induction j with
  | zero => simp_all
  | succ j ih =>
      rcases Nat.eq_or_lt_of_le hij with h | h
      · simp [h]
      · exact le_trans (ih (by omega) (by omega)) (hmono j (by omega))

theorem sortRows_invariant (colsA : List ℤ) (valsA : List ℚ) (base : ℤ)
    (rp : List ℤ) (N : ℕ) (colsS0 : List ℤ) (valsS0 : List ℚ)
    (hc0 : colsS0.length = N) (hv0 : valsS0.length = N) (M : ℕ)
    (hmono : ∀ i < M, rowStart rp base i ≤ rowStart rp base (i + 1))
    (hbound : rowStart rp base M ≤ N) :
    ∀ k, k ≤ M →
      (sortRows colsA valsA base rp k (List.range N, colsS0, valsS0)).1.length = N
      ∧ (sortRows colsA valsA base rp k (List.range N, colsS0, valsS0)).2.1.length = N
      ∧ (sortRows colsA valsA base rp k (List.range N, colsS0, valsS0)).2.2.length = N
      ∧ (∀ p, rowStart rp base k ≤ p → p < N →
          (sortRows colsA valsA base rp k (List.range N, colsS0, valsS0)).1.getD p 0 = p)
      ∧ (∀ i, i < k → ∀ t, t < rowStart rp base (i + 1) - rowStart rp base i →
          (sortRows colsA valsA base rp k (List.range N, colsS0, valsS0)).2.1.getD
              (rowStart rp base i + t) 0
            = ((sortedRowPerm colsA rp base i).map fun p => colsA.getD p 0 - base).getD t 0
          ∧ (sortRows colsA valsA base rp k (List.range N, colsS0, valsS0)).2.2.getD
              (rowStart rp base i + t) 0
            = ((sortedRowPerm colsA rp base i).map fun p => valsA.getD p 0).getD t 0) := by
  intro k
  induction k with
  | zero =>
      intro _
      refine ⟨by simp [sortRows], by simpa [sortRows] using hc0,
        by simpa [sortRows] using hv0, ?_, by omega⟩
      intro p _ hp
      simp only [sortRows]
      rw [List.getD_eq_getElem?_getD, List.getElem?_range hp]
      rfl
  | succ k ih =>
      intro hkM
      obtain ⟨hl1, hl2, hl3, hid, hrows⟩ := ih (by omega)
      have hmono2 := rowStart_mono rp base M hmono
      have hkk1 : rowStart rp base k ≤ rowStart rp base (k + 1) := hmono k (by omega)
      have hk1N : rowStart rp base (k + 1) ≤ N :=
        le_trans (hmono2 (k + 1) M (by omega) le_rfl) hbound
      have hseg :
          (((sortRows colsA valsA base rp k (List.range N, colsS0, valsS0)).1.drop
              (rowStart rp base k)).take
            (rowStart rp base (k + 1) - rowStart rp base k))
          = List.range' (rowStart rp base k)
              (rowStart rp base (k + 1) - rowStart rp base k) := by
        apply eq_range'_of_getD
        · rw [List.length_take, List.length_drop, hl1]
          omega
        · intro t ht
          rw [getD_drop_take _ _ _ _ _ ht]
          exact hid (rowStart rp base k + t) (by omega) (by omega)
      have hsortlen : (sortedRowPerm colsA rp base k).length
          = rowStart rp base (k + 1) - rowStart rp base k := by
        rw [sortedRowPerm, List.length_insertionSort, List.length_range']
      have hstep2 : sortRows colsA valsA base rp (k + 1) (List.range N, colsS0, valsS0)
          = (writeSeg (sortRows colsA valsA base rp k (List.range N, colsS0, valsS0)).1
               (rowStart rp base k) (sortedRowPerm colsA rp base k),
             writeSeg (sortRows colsA valsA base rp k (List.range N, colsS0, valsS0)).2.1
               (rowStart rp base k) ((sortedRowPerm colsA rp base k).map
                 fun p => colsA.getD p 0 - base),
             writeSeg (sortRows colsA valsA base rp k (List.range N, colsS0, valsS0)).2.2
               (rowStart rp base k) ((sortedRowPerm colsA rp base k).map
                 fun p => valsA.getD p 0)) := by
        show sortRowStep colsA valsA base rp k
            (sortRows colsA valsA base rp k (List.range N, colsS0, valsS0)) = _
        rw [sortRowStep]
        simp only [hseg]
        rfl
      rw [hstep2]
      have hwlen1 : (rowStart rp base k) + (sortedRowPerm colsA rp base k).length ≤ N := by
        rw [hsortlen]; omega
      refine ⟨?_, ?_, ?_, ?_, ?_⟩
      · rw [writeSeg_length _ _ _ (by rw [hl1]; exact hwlen1), hl1]
      · rw [writeSeg_length _ _ _ (by rw [List.length_map, hl2]; exact hwlen1), hl2]
      · rw [writeSeg_length _ _ _ (by rw [List.length_map, hl3]; exact hwlen1), hl3]
      · intro p hp hpN
        rw [writeSeg_getD_ge _ _ _ _ _ (by rw [hl1]; exact hwlen1)
          (by rw [hsortlen]; omega)]
        exact hid p (by omega) hpN
      · intro i hi t ht
        rcases Nat.lt_or_ge i k with hik | hik
        · have hend : rowStart rp base i + t < rowStart rp base k := by
            have h1 : rowStart rp base (i + 1) ≤ rowStart rp base k :=
              hmono2 (i + 1) k (by omega) (by omega)
            omega
          constructor
          · rw [writeSeg_getD_lt _ _ _ _ _ hend (by rw [hl2]; omega)]
            exact (hrows i hik t ht).1
          · rw [writeSeg_getD_lt _ _ _ _ _ hend (by rw [hl3]; omega)]
            exact (hrows i hik t ht).2
        · have hik2 : i = k := by omega
          subst hik2
          constructor
          · exact writeSeg_getD_in _ _ _ _ _ (by rw [hl2]; omega)
              (by rw [List.length_map, hsortlen]; omega)
          · exact writeSeg_getD_in _ _ _ _ _ (by rw [hl3]; omega)
              (by rw [List.length_map, hsortlen]; omega)

/-- **C6.** For every matrix with `m ≥ 0` rows, non-null buffers and
disjoint (monotone, in-bounds) row segments, `aoclsparse_sort_csr`
sorts each row by ascending column index via an index permutation:
afterwards each row of the output holds a permutation of the input
row's `(column − base, value)` pairs, its column indices are in
ascending (non-decreasing, and strictly increasing when the input row
has no duplicate columns) order, and the row-offset array of the
destination is never changed. -/
theorem sort_csr_correct (allocOk : ℕ → Bool) (m n nnz base : ℤ)
    (rp colsA : List ℤ) (valsA : List ℚ) (colsS0 : List ℤ) (valsS0 : List ℚ)
    (A As : CSRBuf)
    (hA : A = ⟨some rp, some colsA, some valsA⟩)
    (hAsc : As.csr_col_ptr = some colsS0) (hAsv : As.csr_val = some valsS0)
    (hc0 : colsS0.length = nnz.toNat) (hv0 : valsS0.length = nnz.toNat)
    (hm : 0 ≤ m) (ha : allocOk 0 = true)
    (hmono : ∀ i < m.toNat, rowStart rp base i ≤ rowStart rp base (i + 1))
    (hbound : rowStart rp base m.toNat ≤ nnz.toNat) :
    (aoclsparse_sort_csr allocOk m n nnz base A As).1 = .success
    ∧ (aoclsparse_sort_csr allocOk m n nnz base A As).2.csr_row_ptr = As.csr_row_ptr
    ∧ ∀ i, i < m.toNat →
        (sortOutPairs (aoclsparse_sort_csr allocOk m n nnz base A As).2 rp base i).Perm
            (csrRowPairs colsA valsA rp base i)
        ∧ ((sortOutPairs (aoclsparse_sort_csr allocOk m n nnz base A As).2 rp base i).map
            Prod.fst).Sorted (· ≤ ·)
        ∧ (((csrRowPairs colsA valsA rp base i).map Prod.fst).Nodup →
            ((sortOutPairs (aoclsparse_sort_csr allocOk m n nnz base A As).2 rp base i).map
              Prod.fst).Sorted (· < ·)) := by
  subst hA
  by_cases hz : m = 0 ∨ nnz = 0
  · -- quick return: all rows are empty (or there are none)
    have hR : aoclsparse_sort_csr allocOk m n nnz base
        ⟨some rp, some colsA, some valsA⟩ As = (.success, As) := by
      simp [aoclsparse_sort_csr, hz]
    rw [hR]
    refine ⟨rfl, rfl, ?_⟩
    intro i hi
    have hlen0 : rowStart rp base (i + 1) - rowStart rp base i = 0 := by
      rcases hz with h | h
      · omega
      · have h0 : rowStart rp base m.toNat ≤ 0 := by
          rw [h] at hbound
          simpa using hbound
        have h1 := rowStart_mono rp base m.toNat hmono (i + 1) m.toNat (by omega) le_rfl
        omega
    simp [sortOutPairs, csrRowPairs, hlen0, List.Sorted]
  · -- main path
    have hR : aoclsparse_sort_csr allocOk m n nnz base
        ⟨some rp, some colsA, some valsA⟩ As
        = (.success,
            { As with
              csr_col_ptr := some (sortRows colsA valsA base rp m.toNat
                (List.range nnz.toNat, colsS0, valsS0)).2.1
              csr_val := some (sortRows colsA valsA base rp m.toNat
                (List.range nnz.toNat, colsS0, valsS0)).2.2 }) := by
      simp [aoclsparse_sort_csr, hz, ha, hAsc, hAsv]
    rw [hR]
    obtain ⟨hl1, hl2, hl3, hid, hrows⟩ :=
      sortRows_invariant colsA valsA base rp nnz.toNat colsS0 valsS0 hc0 hv0
        m.toNat hmono hbound m.toNat le_rfl
    refine ⟨rfl, rfl, ?_⟩
    intro i hi
    have hsortlen : (sortedRowPerm colsA rp base i).length
        = rowStart rp base (i + 1) - rowStart rp base i := by
      rw [sortedRowPerm, List.length_insertionSort, List.length_range']
    -- identify the extracted row with the sorted-permutation image
    have hout : sortOutPairs
        { As with
          csr_col_ptr := some (sortRows colsA valsA base rp m.toNat
            (List.range nnz.toNat, colsS0, valsS0)).2.1
          csr_val := some (sortRows colsA valsA base rp m.toNat
            (List.range nnz.toNat, colsS0, valsS0)).2.2 } rp base i
        = (sortedRowPerm colsA rp base i).map
            fun p => (colsA.getD p 0 - base, valsA.getD p 0) := by
      apply List.ext_getElem
      · simp [sortOutPairs, hsortlen]
      · intro t h1 h2
        have ht : t < rowStart rp base (i + 1) - rowStart rp base i := by
          simpa [sortOutPairs] using h1
        have hts : t < (sortedRowPerm colsA rp base i).length := by
          rw [hsortlen]; exact ht
        obtain ⟨hc, hv⟩ := hrows i hi t ht
        have hmapc : (List.map (fun p => colsA.getD p 0 - base)
            (sortedRowPerm colsA rp base i)).getD t 0
            = colsA.getD ((sortedRowPerm colsA rp base i)[t]) 0 - base := by
          rw [List.getD_eq_getElem?_getD, List.getElem?_map,
            List.getElem?_eq_getElem hts]
          rfl
        have hmapv : (List.map (fun p => valsA.getD p 0)
            (sortedRowPerm colsA rp base i)).getD t 0
            = valsA.getD ((sortedRowPerm colsA rp base i)[t]) 0 := by
          rw [List.getD_eq_getElem?_getD, List.getElem?_map,
            List.getElem?_eq_getElem hts]
          rfl
        simp only [sortOutPairs, List.getElem_map, List.getElem_range, Option.getD_some]
        rw [Prod.ext_iff]
        exact ⟨by rw [hc, hmapc], by rw [hv, hmapv]⟩
    rw [hout]
    have hperm : (sortedRowPerm colsA rp base i).Perm
        (List.range' (rowStart rp base i)
          (rowStart rp base (i + 1) - rowStart rp base i)) :=
      List.perm_insertionSort _ _
    have hsorted : (sortedRowPerm colsA rp base i).Sorted (colLe colsA) :=
      List.sorted_insertionSort _ _
    refine ⟨?_, ?_, ?_⟩
    · exact hperm.map _
    · rw [List.map_map]
      refine List.Pairwise.map _ ?_ hsorted
      intro a b hab
      simpa using sub_le_sub_right hab base
    · intro hnd
      have hnd2 : ((sortedRowPerm colsA rp base i).map
          fun p => colsA.getD p 0 - base).Nodup := by
        have hpm : ((sortedRowPerm colsA rp base i).map
            fun p => colsA.getD p 0 - base).Perm
            ((List.range' (rowStart rp base i)
              (rowStart rp base (i + 1) - rowStart rp base i)).map
              fun p => colsA.getD p 0 - base) := hperm.map _
        refine hpm.nodup_iff.mpr ?_
        have : ((csrRowPairs colsA valsA rp base i).map Prod.fst)
            = (List.range' (rowStart rp base i)
              (rowStart rp base (i + 1) - rowStart rp base i)).map
              fun p => colsA.getD p 0 - base := by
          simp [csrRowPairs, List.map_map]
        rwa [this] at hnd
      rw [List.map_map]
      have hle : ((sortedRowPerm colsA rp base i).map
          fun p => colsA.getD p 0 - base).Sorted (· ≤ ·) := by
        refine List.Pairwise.map _ ?_ hsorted
        intro a b hab
        simpa using sub_le_sub_right hab base
      have := List.Sorted.lt_of_le hle hnd2
      simpa [Function.comp] using this

/-- Witness for `sort_csr_correct`: a 1×2 matrix with one unsorted row
`[(1,5),(0,7)]` (base 0). -/
theorem sort_csr_correct_witness :
    ((0 : ℤ) ≤ 1) ∧
    (aoclsparse_sort_csr (fun _ => true) 1 2 2 0
        ⟨some [0, 2], some [1, 0], some [5, 7]⟩
        ⟨some [0, 2], some [9, 9], some [0, 0]⟩).1 = .success := by
  refine ⟨by norm_num, ?_⟩
  exact (sort_csr_correct (fun _ => true) 1 2 2 0 [0, 2] [1, 0] [5, 7] [9, 9] [0, 0]
    ⟨some [0, 2], some [1, 0], some [5, 7]⟩ ⟨some [0, 2], some [9, 9], some [0, 0]⟩
    rfl rfl rfl (by decide) (by decide) (by norm_num) rfl (by decide) (by decide)).1

theorem colSeg_succ (cols : List ℤ) (base : ℤ) (s k : ℕ) :
    colSeg cols base s (k + 1)
      = (cols.getD s 0 - base) :: colSeg cols base (s + 1) k := by
  simp only [colSeg, List.range_succ_eq_map, List.map_cons, List.map_map]
  simp [Function.comp_def, Nat.succ_eq_add_one, Nat.add_comm, Nat.add_assoc,
    Nat.add_left_comm]

theorem valSeg_succ (vals : List ℚ) (s k : ℕ) :
    valSeg vals s (k + 1) = vals.getD s 0 :: valSeg vals (s + 1) k := by
  simp only [valSeg, List.range_succ_eq_map, List.map_cons, List.map_map]
  simp [Function.comp_def, Nat.succ_eq_add_one, Nat.add_comm, Nat.add_assoc,
    Nat.add_left_comm]

theorem diagScan_eq (cols : List ℤ) (base : ℤ) (i : ℤ) :
    ∀ k s, diagScan cols base i s k
      = ((specScan i (colSeg cols base s k)).1,
          s + (specScan i (colSeg cols base s k)).2) := by
  intro k
  induction k with
  | zero =>
      intro s
      simp [diagScan, colSeg, specScan]
  | succ k ih =>
      intro s
      rw [colSeg_succ]
      simp only [diagScan, specScan, List.getD_eq_getElem?_getD]
      by_cases h1 : cols[s]?.getD 0 - base = i
      · rw [if_pos h1, if_pos h1]
        simp
      · rw [if_neg h1, if_neg h1]
        by_cases h2 : i < cols[s]?.getD 0 - base
        · rw [if_pos h2, if_pos h2]
          simp
        · rw [if_neg h2, if_neg h2, ih (s + 1)]
          simp only [Prod.mk.injEq, List.getD_eq_getElem?_getD]
          exact ⟨trivial, by omega⟩

theorem specScan_le_length (i : ℤ) (L : List ℤ) : (specScan i L).2 ≤ L.length := by
  induction L with
  | nil => simp [specScan]
  | cons c t ih =>
      by_cases h1 : c = i
      · simp [specScan, h1]
      · by_cases h2 : c > i
        · simp [specScan, h1, h2]
        · simp only [specScan, if_neg h1, if_neg h2, List.length_cons]
          omega

theorem specScan_found_iff (i : ℤ) (L : List ℤ) (hs : L.Sorted (· < ·)) :
    (specScan i L).1 = true ↔ i ∈ L := by
  induction L with
  | nil => simp [specScan]
  | cons c t ih =>
      rw [List.sorted_cons] at hs
      by_cases h1 : c = i
      · simp [specScan, h1]
      · by_cases h2 : c > i
        · simp only [specScan, if_pos h2, if_neg h1]
          constructor
          · intro h
            exact absurd h (by simp)
          · intro h
            rcases List.mem_cons.mp h with h | h
            · exact absurd h.symm h1
            · exact absurd (hs.1 i h) (by omega)
        · simp only [specScan, if_neg h1, if_neg h2]
          rw [ih hs.2, List.mem_cons]
          constructor
          · exact Or.inr
          · rintro (h | h)
            · exact absurd h.symm h1
            · exact h

theorem specScan_take (i : ℤ) (L : List ℤ) :
    ∀ c ∈ L.take (specScan i L).2, c < i := by
  induction L with
  | nil => simp [specScan]
  | cons c t ih =>
      by_cases h1 : c = i
      · simp [specScan, h1]
      · by_cases h2 : c > i
        · simp [specScan, h1, h2]
        · simp only [specScan, if_neg h1, if_neg h2, List.take_succ_cons]
          intro x hx
          rcases List.mem_cons.mp hx with h | h
          · subst h
            omega
          · exact ih x h

theorem specScan_drop (i : ℤ) (L : List ℤ) (hs : L.Sorted (· < ·))
    (hnf : (specScan i L).1 = false) :
    ∀ c ∈ L.drop (specScan i L).2, i < c := by
  induction L with
  | nil => simp [specScan]
  | cons c t ih =>
      rw [List.sorted_cons] at hs
      by_cases h1 : c = i
      · simp [specScan, h1] at hnf
      · by_cases h2 : c > i
        · simp only [specScan, if_pos h2, if_neg h1, List.drop_zero]
          intro x hx
          rcases List.mem_cons.mp hx with h | h
          · omega
          · have := hs.1 x h
            omega
        · simp only [specScan, if_neg h1, if_neg h2, List.drop_succ_cons]
          simp only [specScan, if_neg h1, if_neg h2] at hnf
          exact ih hs.2 hnf

theorem colSeg_length (cols : List ℤ) (base : ℤ) (s k : ℕ) :
    (colSeg cols base s k).length = k := by
  simp [colSeg]

theorem valSeg_length (vals : List ℚ) (s k : ℕ) :
    (valSeg vals s k).length = k := by
  simp [valSeg]

theorem fillDiagMissing_spec (rp cols : List ℤ) (base : ℤ) (n : ℤ) :
    ∀ i, fillDiagMissing rp cols base n i
      = (cbMissing rp cols base n i, (List.range i).map (mdSpec rp cols base n)) := by
  intro i
  induction i with
  | zero => simp [fillDiagMissing, cbMissing]
  | succ i ih =>
      rw [fillDiagMissing, ih]
      have hscan : diagScan cols base i (rowStart rp base i)
          (rowStart rp base (i + 1) - rowStart rp base i)
          = ((specScan (i : ℤ) (rowColsB rp cols base i)).1,
             rowStart rp base i + (specScan (i : ℤ) (rowColsB rp cols base i)).2) := by
        rw [diagScan_eq]
        rfl
      simp only [hscan, List.range_succ, List.map_append, List.map_cons, List.map_nil]
      by_cases hm : rowMissing rp cols base n i
      · have h1 : ¬(specScan (i : ℤ) (rowColsB rp cols base i)).1 = true
            ∧ (i : ℤ) < n := by
          simpa [rowMissing] using hm
        rw [if_pos (by simpa using h1)]
        simp [cbMissing, mdSpec, if_pos hm, h1]
      · have h1 : ¬(¬(specScan (i : ℤ) (rowColsB rp cols base i)).1 = true
            ∧ (i : ℤ) < n) := by
          by_contra hc
          push_neg at hc
          exact hm (by simp [rowMissing, hc.1, hc.2])
        rw [if_neg (by simpa using h1)]
        simp only [cbMissing, mdSpec, if_neg hm]
        simp [hm]

theorem fillDiagRow_no_trigger (cols : List ℤ) (vals : List ℚ) (base : ℤ)
    (i : ℤ) (trig : Option ℕ) :
    ∀ k s na nc icol aval, (∀ v, trig = some v → v < nc) →
      fillDiagRow cols vals base i trig s k na nc icol aval
        = (na, nc + k, icol ++ colSeg cols base s k, aval ++ valSeg vals s k) := by
  intro k
  induction k with
  | zero =>
      intro s na nc icol aval h
      have ht : ¬ trig = some nc := by
        intro hc
        exact absurd (h nc hc) (by omega)
      simp [fillDiagRow, ht, colSeg, valSeg]
  | succ k ih =>
      intro s na nc icol aval h
      have ht : ¬ trig = some nc := by
        intro hc
        exact absurd (h nc hc) (by omega)
      rw [fillDiagRow, if_neg ht, ih (s + 1) na (nc + 1) _ _
        (fun v hv => by have := h v hv; omega)]
      rw [colSeg_succ, valSeg_succ]
      simp [List.append_assoc]
      omega

theorem colSeg_zero (cols : List ℤ) (base : ℤ) (s : ℕ) :
    colSeg cols base s 0 = [] := rfl

theorem valSeg_zero (vals : List ℚ) (s : ℕ) :
    valSeg vals s 0 = [] := rfl

theorem fillDiagRow_trigger (cols : List ℤ) (vals : List ℚ) (base : ℤ)
    (i : ℤ) :
    ∀ k r s na nc icol aval, r ≤ k →
      fillDiagRow cols vals base i (some (nc + r)) s k na nc icol aval
        = (na + 1, nc + k + 1,
           icol ++ colSeg cols base s r ++ [i] ++ colSeg cols base (s + r) (k - r),
           aval ++ valSeg vals s r ++ [0] ++ valSeg vals (s + r) (k - r)) := by
  intro k
  induction k with
  | zero =>
      intro r s na nc icol aval hr
      have hr0 : r = 0 := by omega
      subst hr0
      simp [fillDiagRow, colSeg, valSeg]
  | succ k ih =>
      intro r s na nc icol aval hr
      rcases Nat.eq_zero_or_pos r with hr0 | hrpos
      · subst hr0
        rw [fillDiagRow, if_pos (by simp)]
        rw [fillDiagRow_no_trigger cols vals base i _ k (s + 1) (na + 1) (nc + 2)
          _ _ (fun v hv => by simp at hv; omega)]
        simp only [Nat.add_zero, Nat.sub_zero, colSeg_zero, valSeg_zero,
          List.append_nil]
        have hnum : nc + 2 + k = nc + (k + 1) + 1 := by omega
        rw [hnum, colSeg_succ, valSeg_succ]
        simp [List.append_assoc]
      · obtain ⟨t, ht⟩ : ∃ t, r = t + 1 := ⟨r - 1, by omega⟩
        subst ht
        have hne : ¬ (some (nc + (t + 1)) : Option ℕ) = some nc := by
          intro hc
          have := Option.some.inj hc
          omega
        rw [fillDiagRow, if_neg hne]
        have harg : (some (nc + (t + 1)) : Option ℕ) = some ((nc + 1) + t) := by
          congr 1
          omega
        rw [harg, ih t (s + 1) na (nc + 1) _ _ (by omega)]
        have h1 : k + 1 - (t + 1) = k - t := by omega
        have h2 : s + (t + 1) = s + 1 + t := by omega
        have hnum : nc + 1 + k + 1 = nc + (k + 1) + 1 := by omega
        rw [h1, h2, hnum, colSeg_succ, valSeg_succ]
        simp [List.append_assoc]

theorem getD_range_map {α : Type} (f : ℕ → α) (M i : ℕ) (h : i < M) (d : α) :
    ((List.range M).map f).getD i d = f i := by
  rw [List.getD_eq_getElem?_getD, List.getElem?_map, List.getElem?_range h]
  rfl

theorem fillDiagBuild_spec (rp cols : List ℤ) (vals : List ℚ) (base : ℤ)
    (n : ℤ) (M : ℕ)
    (hmono : ∀ i < M, rowStart rp base i ≤ rowStart rp base (i + 1))
    (h0 : rowStart rp base 0 = 0) :
    ∀ i, i ≤ M →
      fillDiagBuild rp cols vals base ((List.range M).map (mdSpec rp cols base n)) i
        = (cbMissing rp cols base n i,
           rowStart rp base i + cbMissing rp cols base n i,
           icrowSpec rp cols base n i,
           outColsUpTo rp cols base n i,
           outValsUpTo rp cols vals base n i) := by
  intro i
  induction i with
  | zero =>
      intro _
      simp [fillDiagBuild, cbMissing, icrowSpec, outColsUpTo, outValsUpTo, h0]
  | succ i ih =>
      intro hin
      have hi : i < M := by omega
      rw [fillDiagBuild, ih (by omega)]
      dsimp only
      rw [getD_range_map _ _ _ hi]
      have hscan_le : scanPos rp cols base i ≤ rowLen rp base i := by
        have h1 := specScan_le_length (i : ℤ) (rowColsB rp cols base i)
        rwa [rowColsB, colSeg_length] at h1
      have hlen : rowStart rp base (i + 1) - rowStart rp base i = rowLen rp base i :=
        rfl
      by_cases hm : rowMissing rp cols base n i
      · rw [mdSpec, if_pos hm]
        have harg : (some (rowStart rp base i + (specScan (i : ℤ)
              (rowColsB rp cols base i)).2 + cbMissing rp cols base n i) : Option ℕ)
            = some ((rowStart rp base i + cbMissing rp cols base n i)
                + scanPos rp cols base i) := by
          rw [scanPos]
          congr 1
          omega
        rw [harg]
        rw [fillDiagRow_trigger cols vals base (i : ℤ)
          (rowStart rp base (i + 1) - rowStart rp base i) (scanPos rp cols base i)
          (rowStart rp base i)
          (cbMissing rp cols base n i)
          (rowStart rp base i + cbMissing rp cols base n i)
          (outColsUpTo rp cols base n i) (outValsUpTo rp cols vals base n i)
          (by rw [hlen]; exact hscan_le)]
        simp only [hlen, Prod.mk.injEq]
        refine ⟨?_, ?_, ?_, ?_, ?_⟩
        · simp [cbMissing, hm]
        · have := hmono i hi
          simp only [cbMissing, if_pos hm]
          have h2 : rowStart rp base i + rowLen rp base i = rowStart rp base (i + 1) := by
            rw [rowLen]
            omega
          omega
        · rw [icrowSpec, icrowSpec, List.range_succ, List.map_append]
          simp [cbMissing]
        · rw [outColsUpTo, outColsRow, if_pos hm]
          simp [List.append_assoc]
        · rw [outValsUpTo, outValsRow, if_pos hm]
          simp [List.append_assoc]
      · rw [mdSpec, if_neg hm]
        rw [fillDiagRow_no_trigger cols vals base (i : ℤ) none
          (rowStart rp base (i + 1) - rowStart rp base i) (rowStart rp base i)
          (cbMissing rp cols base n i)
          (rowStart rp base i + cbMissing rp cols base n i)
          (outColsUpTo rp cols base n i) (outValsUpTo rp cols vals base n i)
          (by intro v hv; cases hv)]
        simp only [hlen, Prod.mk.injEq]
        refine ⟨?_, ?_, ?_, ?_, ?_⟩
        · simp [cbMissing, hm]
        · have := hmono i hi
          simp only [cbMissing, if_neg hm]
          have h2 : rowStart rp base i + rowLen rp base i = rowStart rp base (i + 1) := by
            rw [rowLen]
            omega
          omega
        · rw [icrowSpec, icrowSpec, List.range_succ, List.map_append]
          simp [cbMissing]
        · rw [outColsUpTo, outColsRow, if_neg hm]
        · rw [outValsUpTo, outValsRow, if_neg hm]

theorem rowMissing_eq (rp cols : List ℤ) (base : ℤ) (n : ℤ) (j : ℕ)
    (hs : (rowColsB rp cols base j).Sorted (· < ·)) :
    rowMissing rp cols base n j = missingSpecB rp cols base n j := by
  have h := specScan_found_iff (j : ℤ) (rowColsB rp cols base j) hs
  rcases Bool.eq_false_or_eq_true (specScan (j : ℤ) (rowColsB rp cols base j)).1
    with hf | hf
  · have hmem : (j : ℤ) ∈ rowColsB rp cols base j := h.mp hf
    by_cases hn : (j : ℤ) < n <;>
      simp [rowMissing, missingSpecB, hf, hn, hmem]
  · have hmem : (j : ℤ) ∉ rowColsB rp cols base j := by
      intro hc
      rw [← h] at hc
      simp [hf] at hc
    by_cases hn : (j : ℤ) < n <;>
      simp [rowMissing, missingSpecB, hf, hn, hmem]

theorem cb_eq_countP (rp cols : List ℤ) (base : ℤ) (n : ℤ) (M : ℕ)
    (hs : ∀ j < M, (rowColsB rp cols base j).Sorted (· < ·)) :
    ∀ i ≤ M, cbMissing rp cols base n i
      = (List.range i).countP (missingSpecB rp cols base n) := by
  intro i
  induction i with
  | zero => simp [cbMissing]
  | succ i ih =>
      intro hin
      rw [cbMissing, ih (by omega), List.range_succ, List.countP_append]
      rw [rowMissing_eq rp cols base n i (hs i (by omega))]
      simp [List.countP_cons]

theorem getElem_drop_take {α : Type} (l : List α) (s k t : ℕ)
    (h1 : t < ((l.drop s).take k).length) (h2 : s + t < l.length) :
    ((l.drop s).take k)[t] = l[s + t] := by
  have ht : t < k := by
    simp at h1
    omega
  have hq : ((l.drop s).take k)[t]? = l[s + t]? := by
    rw [List.getElem?_take_of_lt ht, List.getElem?_drop]
  rw [List.getElem?_eq_getElem h1, List.getElem?_eq_getElem h2] at hq
  exact Option.some.inj hq

theorem colSeg_getElem (cols : List ℤ) (base : ℤ) (s k t : ℕ)
    (h : t < (colSeg cols base s k).length) (hb : s + t < cols.length) :
    (colSeg cols base s k)[t] = cols[s + t] - base := by
  simp only [colSeg, List.getElem_map, List.getElem_range]
  congr 1
  rw [List.getD_eq_getElem?_getD, List.getElem?_eq_getElem hb]
  rfl

theorem valSeg_getElem (vals : List ℚ) (s k t : ℕ)
    (h : t < (valSeg vals s k).length) (hb : s + t < vals.length) :
    (valSeg vals s k)[t] = vals[s + t] := by
  simp only [valSeg, List.getElem_map, List.getElem_range]
  rw [List.getD_eq_getElem?_getD, List.getElem?_eq_getElem hb]
  rfl

theorem dropTake_map_eq_colSeg (cols : List ℤ) (base : ℤ) (s k : ℕ)
    (h : s + k ≤ cols.length) :
    ((cols.drop s).take k).map (· - base) = colSeg cols base s k := by
  apply List.ext_getElem
  · simp [colSeg]
    omega
  · intro t h1 h2
    have ht : t < k := by
      rw [colSeg_length] at h2
      exact h2
    have hb : s + t < cols.length := by omega
    rw [List.getElem_map, getElem_drop_take cols s k t (by simpa using h1) hb,
      colSeg_getElem cols base s k t h2 hb]

theorem dropTake_eq_valSeg (vals : List ℚ) (s k : ℕ)
    (h : s + k ≤ vals.length) :
    (vals.drop s).take k = valSeg vals s k := by
  apply List.ext_getElem
  · simp [valSeg]
    omega
  · intro t h1 h2
    have ht : t < k := by
      rw [valSeg_length] at h2
      exact h2
    have hb : s + t < vals.length := by omega
    rw [getElem_drop_take vals s k t h1 hb, valSeg_getElem vals s k t h2 hb]

theorem colSeg_take (cols : List ℤ) (base : ℤ) (s k r : ℕ) (hr : r ≤ k) :
    (colSeg cols base s k).take r = colSeg cols base s r := by
  simp only [colSeg, ← List.map_take, List.take_range, Nat.min_eq_left hr]

theorem valSeg_take (vals : List ℚ) (s k r : ℕ) (hr : r ≤ k) :
    (valSeg vals s k).take r = valSeg vals s r := by
  simp only [valSeg, ← List.map_take, List.take_range, Nat.min_eq_left hr]

theorem colSeg_drop (cols : List ℤ) (base : ℤ) (s k r : ℕ) (hr : r ≤ k) :
    (colSeg cols base s k).drop r = colSeg cols base (s + r) (k - r) := by
  apply List.ext_getElem
  · simp [colSeg]
  · intro t h1 h2
    have ht : t < k - r := by
      rw [colSeg_length] at h2
      exact h2
    rw [List.getElem_drop]
    simp only [colSeg, List.getElem_map, List.getElem_range]
    congr 2
    omega

theorem valSeg_drop (vals : List ℚ) (s k r : ℕ) (hr : r ≤ k) :
    (valSeg vals s k).drop r = valSeg vals (s + r) (k - r) := by
  apply List.ext_getElem
  · simp [valSeg]
  · intro t h1 h2
    have ht : t < k - r := by
      rw [valSeg_length] at h2
      exact h2
    rw [List.getElem_drop]
    simp only [valSeg, List.getElem_map, List.getElem_range]
    have hidx : s + (r + t) = s + r + t := by omega
    rw [hidx]

theorem outColsRow_length (rp cols : List ℤ) (base : ℤ) (n : ℤ) (i : ℕ) :
    (outColsRow rp cols base n i).length
      = rowLen rp base i + (if rowMissing rp cols base n i then 1 else 0) := by
  by_cases hm : rowMissing rp cols base n i
  · have hle : scanPos rp cols base i ≤ rowLen rp base i := by
      have h1 := specScan_le_length (i : ℤ) (rowColsB rp cols base i)
      rwa [rowColsB, colSeg_length] at h1
    simp [outColsRow, hm, colSeg_length]
    omega
  · simp [outColsRow, hm, colSeg_length]

theorem outValsRow_length (rp cols : List ℤ) (vals : List ℚ) (base : ℤ) (n : ℤ)
    (i : ℕ) :
    (outValsRow rp cols vals base n i).length
      = rowLen rp base i + (if rowMissing rp cols base n i then 1 else 0) := by
  by_cases hm : rowMissing rp cols base n i
  · have hle : scanPos rp cols base i ≤ rowLen rp base i := by
      have h1 := specScan_le_length (i : ℤ) (rowColsB rp cols base i)
      rwa [rowColsB, colSeg_length] at h1
    simp [outValsRow, hm, valSeg_length]
    omega
  · simp [outValsRow, hm, valSeg_length]

theorem outColsUpTo_length (rp cols : List ℤ) (base : ℤ) (n : ℤ) (M : ℕ)
    (hmono : ∀ i < M, rowStart rp base i ≤ rowStart rp base (i + 1))
    (h0 : rowStart rp base 0 = 0) :
    ∀ i, i ≤ M → (outColsUpTo rp cols base n i).length
      = rowStart rp base i + cbMissing rp cols base n i := by
  intro i
  induction i with
  | zero => simp [outColsUpTo, cbMissing, h0]
  | succ i ih =>
      intro hin
      have hm := hmono i (by omega)
      rw [outColsUpTo, List.length_append, ih (by omega), outColsRow_length,
        cbMissing, rowLen]
      by_cases h : rowMissing rp cols base n i <;> simp [h] <;> omega

theorem outValsUpTo_length (rp cols : List ℤ) (vals : List ℚ) (base : ℤ)
    (n : ℤ) (M : ℕ)
    (hmono : ∀ i < M, rowStart rp base i ≤ rowStart rp base (i + 1))
    (h0 : rowStart rp base 0 = 0) :
    ∀ i, i ≤ M → (outValsUpTo rp cols vals base n i).length
      = rowStart rp base i + cbMissing rp cols base n i := by
  intro i
  induction i with
  | zero => simp [outValsUpTo, cbMissing, h0]
  | succ i ih =>
      intro hin
      have hm := hmono i (by omega)
      rw [outValsUpTo, List.length_append, ih (by omega), outValsRow_length,
        cbMissing, rowLen]
      by_cases h : rowMissing rp cols base n i <;> simp [h] <;> omega

theorem outColsUpTo_split (rp cols : List ℤ) (base : ℤ) (n : ℤ) (i : ℕ) :
    ∀ j, i < j → ∃ rest, outColsUpTo rp cols base n j
      = outColsUpTo rp cols base n i ++ outColsRow rp cols base n i ++ rest := by
  intro j
  induction j with
  | zero => omega
  | succ j ih =>
      intro hij
      rcases Nat.lt_or_ge i j with h | h
      · obtain ⟨rest, hrest⟩ := ih h
        exact ⟨rest ++ outColsRow rp cols base n j, by
          rw [outColsUpTo, hrest]
          simp [List.append_assoc]⟩
      · have hij2 : i = j := by omega
        subst hij2
        exact ⟨[], by rw [outColsUpTo]; simp⟩

theorem outValsUpTo_split (rp cols : List ℤ) (vals : List ℚ) (base : ℤ)
    (n : ℤ) (i : ℕ) :
    ∀ j, i < j → ∃ rest, outValsUpTo rp cols vals base n j
      = outValsUpTo rp cols vals base n i ++ outValsRow rp cols vals base n i ++ rest := by
  intro j
  induction j with
  | zero => omega
  | succ j ih =>
      intro hij
      rcases Nat.lt_or_ge i j with h | h
      · obtain ⟨rest, hrest⟩ := ih h
        exact ⟨rest ++ outValsRow rp cols vals base n j, by
          rw [outValsUpTo, hrest]
          simp [List.append_assoc]⟩
      · have hij2 : i = j := by omega
        subst hij2
        exact ⟨[], by rw [outValsUpTo]; simp⟩

theorem take_zip {α β : Type} :
    ∀ (n : ℕ) (l1 : List α) (l2 : List β),
      (l1.zip l2).take n = (l1.take n).zip (l2.take n)
  | 0, _, _ => by simp
  | n + 1, [], l2 => by simp
  | n + 1, a :: t1, [] => by simp
  | n + 1, a :: t1, b :: t2 => by
      simp [List.zip_cons_cons, take_zip n t1 t2]

theorem drop_zip {α β : Type} :
    ∀ (n : ℕ) (l1 : List α) (l2 : List β), l1.length = l2.length →
      (l1.zip l2).drop n = (l1.drop n).zip (l2.drop n)
  | 0, _, _, _ => by simp
  | n + 1, [], l2, h => by simp
  | n + 1, a :: t1, [], h => by simp at h
  | n + 1, a :: t1, b :: t2, h => by
      simp only [List.zip_cons_cons, List.drop_succ_cons]
      exact drop_zip n t1 t2 (by simpa using h)

theorem cbMissing_mono (rp cols : List ℤ) (base : ℤ) (n : ℤ) :
    ∀ i j, i ≤ j → cbMissing rp cols base n i ≤ cbMissing rp cols base n j := by
  intro i j hij
  induction j with
  | zero => simp_all
  | succ j ih =>
      rcases Nat.eq_or_lt_of_le hij with h | h
      · simp [h]
      · refine le_trans (ih (by omega)) ?_
        rw [cbMissing]
        omega

theorem rowMissing_false_of_cb_zero (rp cols : List ℤ) (base : ℤ) (n : ℤ)
    (M : ℕ) (hz : cbMissing rp cols base n M = 0) :
    ∀ j, j < M → rowMissing rp cols base n j = false := by
  intro j hj
  by_contra hc
  have h1 : rowMissing rp cols base n j = true := by
    simpa using hc
  have h2 : 1 ≤ cbMissing rp cols base n (j + 1) := by
    rw [cbMissing, h1]
    simp
  have h3 := cbMissing_mono rp cols base n (j + 1) M (by omega)
  omega

theorem scanPos_le (rp cols : List ℤ) (base : ℤ) (i : ℕ) :
    scanPos rp cols base i ≤ rowLen rp base i := by
  have h1 := specScan_le_length (i : ℤ) (rowColsB rp cols base i)
  rwa [rowColsB, colSeg_length] at h1

theorem outColsRow_missing (rp cols : List ℤ) (base : ℤ) (n : ℤ) (i : ℕ)
    (hm : rowMissing rp cols base n i = true) :
    outColsRow rp cols base n i
      = (rowColsB rp cols base i).take (scanPos rp cols base i) ++ [(i : ℤ)]
        ++ (rowColsB rp cols base i).drop (scanPos rp cols base i) := by
  rw [outColsRow, if_pos hm, rowColsB,
    colSeg_take cols base _ _ _ (scanPos_le rp cols base i),
    colSeg_drop cols base _ _ _ (scanPos_le rp cols base i)]

theorem outValsRow_missing (rp cols : List ℤ) (vals : List ℚ) (base : ℤ)
    (n : ℤ) (i : ℕ) (hm : rowMissing rp cols base n i = true) :
    outValsRow rp cols vals base n i
      = (rowValsB rp vals base i).take (scanPos rp cols base i) ++ [0]
        ++ (rowValsB rp vals base i).drop (scanPos rp cols base i) := by
  rw [outValsRow, if_pos hm, rowValsB,
    valSeg_take vals _ _ _ (scanPos_le rp cols base i),
    valSeg_drop vals _ _ _ (scanPos_le rp cols base i)]

theorem outColsRow_not_missing (rp cols : List ℤ) (base : ℤ) (n : ℤ) (i : ℕ)
    (hm : rowMissing rp cols base n i = false) :
    outColsRow rp cols base n i = rowColsB rp cols base i := by
  rw [outColsRow, if_neg (by simp [hm]), rowColsB]

theorem outValsRow_not_missing (rp cols : List ℤ) (vals : List ℚ) (base : ℤ)
    (n : ℤ) (i : ℕ) (hm : rowMissing rp cols base n i = false) :
    outValsRow rp cols vals base n i = rowValsB rp vals base i := by
  rw [outValsRow, if_neg (by simp [hm]), rowValsB]

theorem rowColsB_count_of_mem (rp cols : List ℤ) (base : ℤ) (i : ℕ)
    (hs : (rowColsB rp cols base i).Sorted (· < ·))
    (hmem : (i : ℤ) ∈ rowColsB rp cols base i) :
    (rowColsB rp cols base i).count (i : ℤ) = 1 :=
  List.count_eq_one_of_mem hs.nodup hmem

theorem outColsRow_count_missing (rp cols : List ℤ) (base : ℤ) (n : ℤ) (i : ℕ)
    (hs : (rowColsB rp cols base i).Sorted (· < ·))
    (hm : rowMissing rp cols base n i = true) :
    (outColsRow rp cols base n i).count (i : ℤ) = 1 := by
  have hnf : (specScan (i : ℤ) (rowColsB rp cols base i)).1 = false := by
    simp only [rowMissing, Bool.and_eq_true, Bool.not_eq_true'] at hm
    exact hm.1
  rw [outColsRow_missing rp cols base n i hm]
  rw [List.count_append, List.count_append]
  have h1 : ((rowColsB rp cols base i).take (scanPos rp cols base i)).count (i : ℤ)
      = 0 := by
    rw [List.count_eq_zero]
    intro hc
    have := specScan_take (i : ℤ) (rowColsB rp cols base i) _ hc
    omega
  have h2 : ((rowColsB rp cols base i).drop (scanPos rp cols base i)).count (i : ℤ)
      = 0 := by
    rw [List.count_eq_zero]
    intro hc
    have := specScan_drop (i : ℤ) (rowColsB rp cols base i) hs hnf _ hc
    omega
  rw [h1, h2]
  simp

/-- C2: after a successful `aoclsparse_csr_fill_diag` on a matrix whose rows
have strictly increasing column indices, every row `i < n` holds exactly one
entry with column `i`, each row is the input row with a zero-valued diagonal
spliced in (or unchanged when no diagonal was missing), and
`row_offset[m] - row_offset[0] = nnz + #{rows i < n missing a diagonal}`. -/
theorem fill_diag_correct
    (m n nnz base : ℤ) (rp cols : List ℤ) (vals : List ℚ)
    (hnnz : 0 ≤ nnz)
    (hb : ∀ i, i ≤ m.toNat → base ≤ rp.getD i 0)
    (hmono : ∀ i, i < m.toNat → rp.getD i 0 ≤ rp.getD (i + 1) 0)
    (h0 : rp.getD 0 0 = base)
    (hMr : rp.getD m.toNat 0 = base + nnz)
    (hcl : cols.length = nnz.toNat) (hvl : vals.length = nnz.toNat)
    (hsort : ∀ i, i < m.toNat → (rowColsB rp cols base i).Sorted (· < ·)) :
    (aoclsparse_csr_fill_diag (fun _ => true) m n nnz base
        ⟨some rp, some cols, some vals⟩).1 = .success
    ∧ (((aoclsparse_csr_fill_diag (fun _ => true) m n nnz base
          ⟨some rp, some cols, some vals⟩).2.1.csr_row_ptr.getD []).getD m.toNat 0
        - ((aoclsparse_csr_fill_diag (fun _ => true) m n nnz base
          ⟨some rp, some cols, some vals⟩).2.1.csr_row_ptr.getD []).getD 0 0
        = nnz + ((List.range m.toNat).countP (missingSpecB rp cols base n) : ℤ))
    ∧ ∀ i, i < m.toNat →
        (((i : ℤ) < n →
          (fdRowCols (aoclsparse_csr_fill_diag (fun _ => true) m n nnz base
            ⟨some rp, some cols, some vals⟩).2.1 i).count (i : ℤ) = 1)
        ∧ ((i : ℤ) < n → (i : ℤ) ∉ rowColsB rp cols base i →
            ∃ k, fdRowPairs (aoclsparse_csr_fill_diag (fun _ => true) m n nnz base
                ⟨some rp, some cols, some vals⟩).2.1 i
              = (inRowPairs rp cols vals base i).take k ++ [((i : ℤ), 0)]
                ++ (inRowPairs rp cols vals base i).drop k)
        ∧ (¬ ((i : ℤ) < n ∧ (i : ℤ) ∉ rowColsB rp cols base i) →
            fdRowPairs (aoclsparse_csr_fill_diag (fun _ => true) m n nnz base
              ⟨some rp, some cols, some vals⟩).2.1 i
              = inRowPairs rp cols vals base i)) := by
  have hrsmono : ∀ i < m.toNat, rowStart rp base i ≤ rowStart rp base (i + 1) := by
    intro i hi
    have h1 := hmono i hi
    unfold rowStart
    omega
  have h0r : rowStart rp base 0 = 0 := by
    unfold rowStart
    omega
  have hMrr : rowStart rp base m.toNat = nnz.toNat := by
    unfold rowStart
    omega
  have hrs2 := rowStart_mono rp base m.toNat hrsmono
  have hcb := cb_eq_countP rp cols base n m.toNat hsort m.toNat le_rfl
  have hcm := fillDiagMissing_spec rp cols base n m.toNat
  have hlen_slices : ∀ i, i < m.toNat →
      rowStart rp base i + rowLen rp base i ≤ cols.length := by
    intro i hi
    have h1 : rowStart rp base (i + 1) ≤ rowStart rp base m.toNat :=
      hrs2 (i + 1) m.toNat (by omega) le_rfl
    have h2 := hrsmono i hi
    rw [hcl]
    unfold rowLen
    omega
  have hlen_slices_v : ∀ i, i < m.toNat →
      rowStart rp base i + rowLen rp base i ≤ vals.length := by
    intro i hi
    have := hlen_slices i hi
    omega
  by_cases hz : cbMissing rp cols base n m.toNat = 0
  · -- no row is missing a diagonal: the function is a no-op
    have hR : aoclsparse_csr_fill_diag (fun _ => true) m n nnz base
        ⟨some rp, some cols, some vals⟩
        = (.success, ⟨some rp, some cols, some vals⟩, 1) := by
      simp [aoclsparse_csr_fill_diag, hcm, hz]
    rw [hR]
    have hmiss := rowMissing_false_of_cb_zero rp cols base n m.toNat hz
    have hcount0 : (List.range m.toNat).countP (missingSpecB rp cols base n) = 0 := by
      rw [← hcb]
      exact hz
    refine ⟨rfl, ?_, ?_⟩
    · simp only [hcount0, Nat.cast_zero, add_zero]
      simp only [Option.getD_some]
      rw [hMr, h0]
      omega
    · intro i hi
      have hfdp : ∀ j, fdPos ⟨some rp, some cols, some vals⟩ j = rowStart rp base j := by
        intro j
        simp only [fdPos, fdBase, Option.getD_some]
        rw [h0]
        rfl
      have hdelta : fdPos ⟨some rp, some cols, some vals⟩ (i + 1)
          - fdPos ⟨some rp, some cols, some vals⟩ i = rowLen rp base i := by
        rw [hfdp, hfdp, rowLen]
      have hsc : fdRowCols ⟨some rp, some cols, some vals⟩ i
          = rowColsB rp cols base i := by
        rw [fdRowCols, hdelta, hfdp]
        have hfb : fdBase ⟨some rp, some cols, some vals⟩ = base := by
          simp only [fdBase, Option.getD_some]
          exact h0
        rw [hfb]
        simp only [Option.getD_some]
        rw [dropTake_map_eq_colSeg cols base _ _ (hlen_slices i hi), rowColsB]
      have hsv : fdRowVals ⟨some rp, some cols, some vals⟩ i
          = rowValsB rp vals base i := by
        rw [fdRowVals, hdelta, hfdp]
        simp only [Option.getD_some]
        rw [dropTake_eq_valSeg vals _ _ (hlen_slices_v i hi), rowValsB]
      have hmf := hmiss i hi
      refine ⟨?_, ?_, ?_⟩
      · intro hn
        rw [hsc]
        have hfound : (specScan (i : ℤ) (rowColsB rp cols base i)).1 = true := by
          simp only [rowMissing, Bool.and_eq_false_iff, Bool.not_eq_true',
            Bool.not_eq_false] at hmf
          rcases hmf with h | h
          · simpa using h
          · exact absurd hn (by simpa using h)
        exact rowColsB_count_of_mem rp cols base i (hsort i hi)
          ((specScan_found_iff _ _ (hsort i hi)).mp hfound)
      · intro hn hnm
        have hfound : (specScan (i : ℤ) (rowColsB rp cols base i)).1 = true := by
          simp only [rowMissing, Bool.and_eq_false_iff, Bool.not_eq_true',
            Bool.not_eq_false] at hmf
          rcases hmf with h | h
          · simpa using h
          · exact absurd hn (by simpa using h)
        exact absurd ((specScan_found_iff _ _ (hsort i hi)).mp hfound) hnm
      · intro _
        rw [fdRowPairs, hsc, hsv, inRowPairs]
  · -- at least one diagonal is inserted: the buffers are rebuilt
    have hbuild := fillDiagBuild_spec rp cols vals base n m.toNat hrsmono h0r
      m.toNat le_rfl
    have hR : aoclsparse_csr_fill_diag (fun _ => true) m n nnz base
        ⟨some rp, some cols, some vals⟩
        = (.success,
            ⟨some (icrowSpec rp cols base n m.toNat
                ++ [nnz + (cbMissing rp cols base n m.toNat : ℤ)]),
             some (outColsUpTo rp cols base n m.toNat),
             some (outValsUpTo rp cols vals base n m.toNat)⟩, 4) := by
      simp [aoclsparse_csr_fill_diag, hcm, hz, hbuild]
    rw [hR]
    have hMpos : 0 < m.toNat := by
      rcases Nat.eq_zero_or_pos m.toNat with h | h
      · rw [h] at hz
        exact absurd rfl hz
      · exact h
    have hlspec : (icrowSpec rp cols base n m.toNat).length = m.toNat := by
      simp [icrowSpec]
    have hget : ∀ j, j < m.toNat →
        ((icrowSpec rp cols base n m.toNat
          ++ [nnz + (cbMissing rp cols base n m.toNat : ℤ)]).getD j 0)
        = rp.getD j 0 - base + (cbMissing rp cols base n j : ℤ) := by
      intro j hj
      rw [List.getD_eq_getElem?_getD,
        List.getElem?_append_left (by rw [hlspec]; omega)]
      rw [icrowSpec, List.getElem?_map, List.getElem?_range hj]
      rfl
    have hgetM : ((icrowSpec rp cols base n m.toNat
          ++ [nnz + (cbMissing rp cols base n m.toNat : ℤ)]).getD m.toNat 0)
        = nnz + (cbMissing rp cols base n m.toNat : ℤ) := by
      rw [List.getD_eq_getElem?_getD,
        List.getElem?_append_right (by rw [hlspec])]
      rw [hlspec]
      simp
    have hfb : fdBase ⟨some (icrowSpec rp cols base n m.toNat
          ++ [nnz + (cbMissing rp cols base n m.toNat : ℤ)]),
        some (outColsUpTo rp cols base n m.toNat),
        some (outValsUpTo rp cols vals base n m.toNat)⟩ = 0 := by
      rw [fdBase]
      simp only [Option.getD_some]
      rw [hget 0 hMpos, h0]
      simp [cbMissing]
    have hfdp : ∀ j, j ≤ m.toNat →
        fdPos ⟨some (icrowSpec rp cols base n m.toNat
            ++ [nnz + (cbMissing rp cols base n m.toNat : ℤ)]),
          some (outColsUpTo rp cols base n m.toNat),
          some (outValsUpTo rp cols vals base n m.toNat)⟩ j
        = rowStart rp base j + cbMissing rp cols base n j := by
      intro j hj
      rw [fdPos, hfb]
      simp only [Option.getD_some]
      rcases Nat.lt_or_ge j m.toNat with hjlt | hjge
      · rw [hget j hjlt]
        have := hb j (by omega)
        unfold rowStart
        omega
      · have hjM : j = m.toNat := by omega
        subst hjM
        rw [hgetM, hMrr]
        omega
    refine ⟨rfl, ?_, ?_⟩
    · simp only [Option.getD_some]
      rw [hgetM, hget 0 hMpos, h0, ← hcb]
      simp [cbMissing]
    · intro i hi
      have hdd : fdPos ⟨some (icrowSpec rp cols base n m.toNat
            ++ [nnz + (cbMissing rp cols base n m.toNat : ℤ)]),
          some (outColsUpTo rp cols base n m.toNat),
          some (outValsUpTo rp cols vals base n m.toNat)⟩ (i + 1)
          - fdPos ⟨some (icrowSpec rp cols base n m.toNat
            ++ [nnz + (cbMissing rp cols base n m.toNat : ℤ)]),
          some (outColsUpTo rp cols base n m.toNat),
          some (outValsUpTo rp cols vals base n m.toNat)⟩ i
          = (outColsRow rp cols base n i).length := by
        rw [hfdp (i + 1) (by omega), hfdp i (by omega), outColsRow_length,
          cbMissing, rowLen]
        have := hrsmono i hi
        by_cases h : rowMissing rp cols base n i <;> simp [h] <;> omega
      obtain ⟨restc, hrestc⟩ := outColsUpTo_split rp cols base n i m.toNat hi
      obtain ⟨restv, hrestv⟩ := outValsUpTo_split rp cols vals base n i m.toNat hi
      have hplen : (outColsUpTo rp cols base n i).length
          = rowStart rp base i + cbMissing rp cols base n i :=
        outColsUpTo_length rp cols base n m.toNat hrsmono h0r i (by omega)
      have hplenv : (outValsUpTo rp cols vals base n i).length
          = rowStart rp base i + cbMissing rp cols base n i :=
        outValsUpTo_length rp cols vals base n m.toNat hrsmono h0r i (by omega)
      have hvlen_eq : (outValsRow rp cols vals base n i).length
          = (outColsRow rp cols base n i).length := by
        rw [outValsRow_length, outColsRow_length]
      have hsc : fdRowCols ⟨some (icrowSpec rp cols base n m.toNat
            ++ [nnz + (cbMissing rp cols base n m.toNat : ℤ)]),
          some (outColsUpTo rp cols base n m.toNat),
          some (outValsUpTo rp cols vals base n m.toNat)⟩ i
          = outColsRow rp cols base n i := by
        rw [fdRowCols, hdd, hfdp i (by omega), hfb]
        simp only [Option.getD_some]
        rw [hrestc, List.append_assoc, ← hplen, List.drop_left,
          List.take_left]
        simp
      have hsv : fdRowVals ⟨some (icrowSpec rp cols base n m.toNat
            ++ [nnz + (cbMissing rp cols base n m.toNat : ℤ)]),
          some (outColsUpTo rp cols base n m.toNat),
          some (outValsUpTo rp cols vals base n m.toNat)⟩ i
          = outValsRow rp cols vals base n i := by
        rw [fdRowVals, hdd, hfdp i (by omega)]
        simp only [Option.getD_some]
        rw [hrestv, List.append_assoc, ← hplenv, List.drop_left, ← hvlen_eq,
          List.take_left]
      refine ⟨?_, ?_, ?_⟩
      · intro hn
        rw [hsc]
        by_cases hmi : rowMissing rp cols base n i
        · exact outColsRow_count_missing rp cols base n i (hsort i hi) hmi
        · rw [outColsRow_not_missing rp cols base n i (by simpa using hmi)]
          have hfound : (specScan (i : ℤ) (rowColsB rp cols base i)).1 = true := by
            have hmf : rowMissing rp cols base n i = false := by simpa using hmi
            simp only [rowMissing, Bool.and_eq_false_iff, Bool.not_eq_true',
              Bool.not_eq_false] at hmf
            rcases hmf with h | h
            · simpa using h
            · exact absurd hn (by simpa using h)
          exact rowColsB_count_of_mem rp cols base i (hsort i hi)
            ((specScan_found_iff _ _ (hsort i hi)).mp hfound)
      · intro hn hnm
        have hmi : rowMissing rp cols base n i = true := by
          rw [rowMissing_eq rp cols base n i (hsort i hi), missingSpecB]
          simp [hn, hnm]
        refine ⟨scanPos rp cols base i, ?_⟩
        rw [fdRowPairs, hsc, hsv, outColsRow_missing rp cols base n i hmi,
          outValsRow_missing rp cols vals base n i hmi]
        have hlt : ((rowColsB rp cols base i).take (scanPos rp cols base i)).length
            = ((rowValsB rp vals base i).take (scanPos rp cols base i)).length := by
          simp [rowColsB, rowValsB, colSeg_length, valSeg_length]
        rw [List.append_assoc, List.append_assoc,
          List.zip_append hlt]
        rw [inRowPairs, take_zip, drop_zip _ _ _ (by
          simp [rowColsB, rowValsB, colSeg_length, valSeg_length])]
        simp [List.zip_cons_cons]
      · intro hnot
        have hmi : rowMissing rp cols base n i = false := by
          rw [rowMissing_eq rp cols base n i (hsort i hi), missingSpecB]
          simpa using hnot
        rw [fdRowPairs, hsc, hsv, outColsRow_not_missing rp cols base n i hmi,
          outValsRow_not_missing rp cols vals base n i hmi, inRowPairs]

/-- C8 (amended): `aoclsparse_csr_fill_diag` is a no-op — success, matrix
returned unchanged, only the `missing_diag` allocation — when the rows are
sorted with strictly increasing columns and every row `i < n` already holds a
diagonal entry.  The sortedness hypothesis is necessary (see the
counterexample). -/
theorem fill_diag_noop (allocOk : ℕ → Bool) (m n nnz base : ℤ)
    (rp cols : List ℤ) (vals : List ℚ)
    (halloc : allocOk 0 = true)
    (hsort : ∀ i, i < m.toNat → (rowColsB rp cols base i).Sorted (· < ·))
    (hdiag : ∀ i, i < m.toNat → (i : ℤ) < n → (i : ℤ) ∈ rowColsB rp cols base i) :
    aoclsparse_csr_fill_diag allocOk m n nnz base ⟨some rp, some cols, some vals⟩
      = (.success, ⟨some rp, some cols, some vals⟩, 1) := by
  have hcm := fillDiagMissing_spec rp cols base n m.toNat
  have hz : cbMissing rp cols base n m.toNat = 0 := by
    rw [cb_eq_countP rp cols base n m.toNat hsort m.toNat le_rfl]
    apply List.countP_eq_zero.mpr
    intro j hj
    rw [List.mem_range] at hj
    simp only [missingSpecB, decide_eq_true_eq, not_and, not_not]
    intro hn
    exact hdiag j hj hn
  simp [aoclsparse_csr_fill_diag, halloc, hcm, hz]

/-- Witness for `fill_diag_noop` on a concrete 1x1 matrix. -/
theorem fill_diag_noop_witness :
    aoclsparse_csr_fill_diag (fun _ => true) 1 1 1 0 ⟨some [0, 1], some [0], some [3]⟩
      = (.success, ⟨some [0, 1], some [0], some [3]⟩, 1) :=
  fill_diag_noop (fun _ => true) 1 1 1 0 [0, 1] [0] [3] rfl (by decide) (by decide)

/-- C8 counterexample: a 1x2 matrix with the single row `[1, 0]` (unsorted)
contains its diagonal entry 0, yet `aoclsparse_csr_fill_diag` is not a no-op:
the scan stops at the first column `>` the diagonal, misses the later diagonal
entry, and splices in a second zero diagonal. -/
theorem fill_diag_noop_counterexample :
    ((0 : ℤ) ∈ rowColsB [0, 2] [1, 0] 0 0)
    ∧ (aoclsparse_csr_fill_diag (fun _ => true) 1 2 2 0
        ⟨some [0, 2], some [1, 0], some [5, 7]⟩).1 = Status.success
    ∧ (aoclsparse_csr_fill_diag (fun _ => true) 1 2 2 0
        ⟨some [0, 2], some [1, 0], some [5, 7]⟩).2.1
      ≠ ⟨some [0, 2], some [1, 0], some [5, 7]⟩ := by decide

/-- Witness for `fill_diag_correct`: a concrete 2x2 matrix whose second row
is missing its diagonal. -/
theorem fill_diag_correct_witness :
    (aoclsparse_csr_fill_diag (fun _ => true) 2 2 2 0
        ⟨some [0, 1, 2], some [0, 0], some [5, 7]⟩).1 = .success
    ∧ (((aoclsparse_csr_fill_diag (fun _ => true) 2 2 2 0
          ⟨some [0, 1, 2], some [0, 0], some [5, 7]⟩).2.1.csr_row_ptr.getD []).getD (2 : ℤ).toNat 0
        - ((aoclsparse_csr_fill_diag (fun _ => true) 2 2 2 0
          ⟨some [0, 1, 2], some [0, 0], some [5, 7]⟩).2.1.csr_row_ptr.getD []).getD 0 0
        = 2 + ((List.range (2 : ℤ).toNat).countP (missingSpecB [0, 1, 2] [0, 0] 0 2) : ℤ))
    ∧ ∀ i, i < (2 : ℤ).toNat →
        (((i : ℤ) < 2 →
          (fdRowCols (aoclsparse_csr_fill_diag (fun _ => true) 2 2 2 0
            ⟨some [0, 1, 2], some [0, 0], some [5, 7]⟩).2.1 i).count (i : ℤ) = 1)
        ∧ ((i : ℤ) < 2 → (i : ℤ) ∉ rowColsB [0, 1, 2] [0, 0] 0 i →
            ∃ k, fdRowPairs (aoclsparse_csr_fill_diag (fun _ => true) 2 2 2 0
                ⟨some [0, 1, 2], some [0, 0], some [5, 7]⟩).2.1 i
              = (inRowPairs [0, 1, 2] [0, 0] [5, 7] 0 i).take k ++ [((i : ℤ), 0)]
                ++ (inRowPairs [0, 1, 2] [0, 0] [5, 7] 0 i).drop k)
        ∧ (¬ ((i : ℤ) < 2 ∧ (i : ℤ) ∉ rowColsB [0, 1, 2] [0, 0] 0 i) →
            fdRowPairs (aoclsparse_csr_fill_diag (fun _ => true) 2 2 2 0
              ⟨some [0, 1, 2], some [0, 0], some [5, 7]⟩).2.1 i
              = inRowPairs [0, 1, 2] [0, 0] [5, 7] 0 i)) :=
  fill_diag_correct 2 2 2 0 [0, 1, 2] [0, 0] [5, 7] (by decide) (by decide)
    (by decide) (by decide) (by decide) (by decide) (by decide) (by decide)

/-- C5: in `aoclsparse_csr_optimize`, a validated matrix that is already
sorted with a full diagonal takes the alias branch: the normalized
buffers are the user's `csr_mat` buffers, `opt_csr_is_users` is true,
`internal_base_index` keeps the user's base, no CSR buffer allocation is
performed and the numeric values are untouched; otherwise (once the copy
succeeds) a freshly-owned copy is built, `opt_csr_is_users` is false and
`internal_base_index` is set to zero. -/
theorem csr_optimize_alias_or_copy
    (allocOk : ℕ → Bool) (tmpl : ValType) (A : aoclsparse_matrix)
    (htype : (A.val_type = .dmat ∧ tmpl = .dmat) ∨ (A.val_type = .smat ∧ tmpl = .smat))
    (hbase : A.base = 0 ∨ A.base = 1)
    (hvalid : aoclsparse_csr_check_internal A.m A.n A.nnz A.csr_mat A.base = .success) :
    (aoclsparse_csr_check_sort_diag A.m A.n A.base A.csr_mat = (.success, true, true) →
      aoclsparse_csr_optimize allocOk tmpl (some A)
        = (.success,
           some { A with
             opt_csr_mat := A.csr_mat
             opt_csr_is_users := true
             internal_base_index := A.base
             idiag := some (aoclsparse_csr_indices A.m A.base
               (A.csr_mat.csr_row_ptr.getD []) (A.csr_mat.csr_col_ptr.getD [])).2.1
             iurow := some (aoclsparse_csr_indices A.m A.base
               (A.csr_mat.csr_row_ptr.getD []) (A.csr_mat.csr_col_ptr.getD [])).2.2
             opt_csr_ready := true
             opt_csr_full_diag := true
             optimized := true }, 0))
    ∧ (∀ s f, aoclsparse_csr_check_sort_diag A.m A.n A.base A.csr_mat = (.success, s, f) →
        ¬ (s = true ∧ f = true) →
        (aoclsparse_copy_csr allocOk A.m A.n A.nnz A.base A.csr_mat A.opt_csr_mat).1
          = .success →
        ∀ st B k, aoclsparse_csr_optimize allocOk tmpl (some A) = (st, some B, k) →
          B.opt_csr_is_users = false ∧ B.internal_base_index = 0) := by
  have h2 : ¬ (A.base ≠ 0 ∧ A.base ≠ 1) := by
    rcases hbase with h | h <;> simp [h]
  constructor
  · intro hsd
    simp [aoclsparse_csr_optimize, hvalid, hsd, h2, htype, aoclsparse_csr_indices]
  · intro s f hsd hnsf hcopy st B k heq
    simp only [aoclsparse_csr_optimize, hvalid, hsd, h2, htype, ne_eq,
      not_true_eq_false, if_false, not_false_eq_true, if_true] at heq
    cases s with
    | true =>
      cases f with
      | true => exact absurd ⟨rfl, rfl⟩ hnsf
      | false =>
        simp only [true_and, false_and, and_true, and_false, if_true, if_false,
          eq_self_iff_true, hcopy, ne_eq, not_true_eq_false, not_false_eq_true,
          Bool.false_eq_true, Bool.true_eq_false, ite_true, ite_false,
          aoclsparse_csr_indices] at heq
        repeat' split at heq
        all_goals
          simp only [Prod.mk.injEq, Option.some.injEq] at heq
          obtain ⟨-, hB, -⟩ := heq
          subst hB
          exact ⟨rfl, rfl⟩
    | false =>
      cases f with
      | true =>
        simp only [true_and, false_and, and_true, and_false, if_true, if_false,
          eq_self_iff_true, hcopy, ne_eq, not_true_eq_false, not_false_eq_true,
          Bool.false_eq_true, Bool.true_eq_false, ite_true, ite_false,
          aoclsparse_csr_indices] at heq
        repeat' split at heq
        all_goals
          simp only [Prod.mk.injEq, Option.some.injEq] at heq
          obtain ⟨-, hB, -⟩ := heq
          subst hB
          exact ⟨rfl, rfl⟩
      | false =>
        simp only [true_and, false_and, and_true, and_false, if_true, if_false,
          eq_self_iff_true, hcopy, ne_eq, not_true_eq_false, not_false_eq_true,
          Bool.false_eq_true, Bool.true_eq_false, ite_true, ite_false,
          aoclsparse_csr_indices] at heq
        repeat' split at heq
        all_goals
          simp only [Prod.mk.injEq, Option.some.injEq] at heq
          obtain ⟨-, hB, -⟩ := heq
          subst hB
          exact ⟨rfl, rfl⟩

/-- Witness for `csr_optimize_alias_or_copy`: the alias branch on a
concrete sorted full-diagonal matrix. -/
theorem csr_optimize_alias_or_copy_witness :
    aoclsparse_csr_optimize (fun _ => true) ValType.dmat (some optWitA)
      = (.success, some { optWitA with
          opt_csr_mat := optWitA.csr_mat
          opt_csr_is_users := true
          internal_base_index := optWitA.base
          idiag := some (aoclsparse_csr_indices optWitA.m optWitA.base
            (optWitA.csr_mat.csr_row_ptr.getD [])
            (optWitA.csr_mat.csr_col_ptr.getD [])).2.1
          iurow := some (aoclsparse_csr_indices optWitA.m optWitA.base
            (optWitA.csr_mat.csr_row_ptr.getD [])
            (optWitA.csr_mat.csr_col_ptr.getD [])).2.2
          opt_csr_ready := true
          opt_csr_full_diag := true
          optimized := true }, 0) :=
  (csr_optimize_alias_or_copy (fun _ => true) ValType.dmat optWitA (by decide)
    (by decide) (by decide)).1 (by decide)
